import Mathlib

/-!
# TextEmbedder

A shallow embedding of `src/text_embedder.cpp` and the properties proved of it.

Conventions of the embedding:
* a `std::string` is the list of its `char`s (`Str`);
* a C++ function that may raise returns `Except Exn _`;
* a function that talks to the HTTP client also returns the list of the
  requests it issued, in order (`Outcome.requests`);
* an output reference parameter (`num_dims`) is passed in and returned.
-/

namespace TextEmbedder

/-! ## Strings -/

/-- A `std::string`: the sequence of its `char`s. -/
abbrev Str := List Char

/-- The ways a call of the embedded code ends without returning: the exceptions its
library calls raise. -/
inductive Exn
  /-- `std::out_of_range`, raised by `std::string::substr`. -/
  | out_of_range
  /-- `nlohmann::json::parse_error`. -/
  | parse_error
  /-- `nlohmann::json::type_error` with its id (302, 305, 316). -/
  | type_error (id : Nat)
  /-- `Ort::Exception`. -/
  | ort_exception
  /-- Not an exception: the call runs into undefined behaviour (an out-of-bounds read). -/
  | undefined_behaviour
deriving DecidableEq, Repr

/-- Subtraction of two `size_t` values (64-bit, wrapping), for operands below `2^64`. -/
def size_sub (a b : Nat) : Nat :=
  if b ≤ a then a - b else a + 2 ^ 64 - b

/-- `s.substr(pos)`: the characters from index `pos` on; `std::out_of_range` when
`pos > s.size()`. -/
def substr (s : Str) (pos : Nat) : Except Exn Str :=
  if pos > s.length then .error .out_of_range else .ok (s.drop pos)

/-- Scan of `std::string::find`: the first index, counted from `i`, at which `pat`
starts in the remaining characters. -/
def findFrom (pat : Str) : Str → Nat → Option Nat
  | [], i => if pat = [] then some i else none
  | c :: cs, i => if pat.isPrefixOf (c :: cs) then some i else findFrom pat cs (i + 1)

/-- `s.find(pat)`: the first position of `pat` in `s`; `none` stands for `npos`. -/
def find (s pat : Str) : Option Nat := findFrom pat s 0

/-! ## Result type -/

/-- Modelled from the spec: `Option<T>` of the repository's `option.h`, the result type
"carrying either the vector or an error with an HTTP-style status code and message". -/
inductive OptionResult (α : Type)
  /-- `Option<T>(value)`. -/
  | ok (value : α)
  /-- `Option<T>(code, error_msg)`. -/
  | error (code : Nat) (msg : Str)
deriving DecidableEq, Repr

/-! ## Floating-point data -/

/-- An IEEE-754 binary floating-point datum: the finite value `(-1)^neg * m * 2^e`,
an infinity, or a NaN. -/
inductive Flt
  | fin (neg : Bool) (m : Nat) (e : Int)
  | inf (neg : Bool)
  | nan
deriving DecidableEq, Repr

/-! ## Floating-point arithmetic (IEEE-754, round to nearest, ties to even) -/

/-- A binary interchange format: `prec` bits of precision, and the least and the greatest
exponent of the unit in the last place. A finite datum `fin neg m e` of the format has
`m < 2^prec` and `qmin ≤ e ≤ qmax`, with `2^(prec-1) ≤ m` unless `e = qmin`. -/
structure Format where
  prec : Nat
  qmin : Int
  qmax : Int

/-- The format of `float`. -/
def binary32 : Format := ⟨24, -149, 104⟩

namespace Format

/-- Is the datum one of the format, in its canonical form. -/
def represents (f : Format) : Flt → Bool
  | .fin _ m e =>
    decide (m < 2 ^ f.prec) && decide (f.qmin ≤ e) && decide (e ≤ f.qmax)
      && (decide (2 ^ (f.prec - 1) ≤ m) || decide (e = f.qmin))
  | _ => true

/-- The loop of `floor_log2`, bounded by `fuel` steps. -/
def floor_log2_loop : Nat → Nat → Nat
  | 0, _ => 0
  | fuel + 1, n => if n < 2 then 0 else floor_log2_loop fuel (n / 2) + 1

/-- The exponent of the greatest power of two that is at most `n` (0 for `n = 0`). -/
def floor_log2 (n : Nat) : Nat := floor_log2_loop n n

/-- Is `num / den ≥ 2^d`. -/
def at_least_pow2 (num den : Nat) (d : Int) : Bool :=
  if 0 ≤ d then decide (den * 2 ^ d.toNat ≤ num) else decide (den ≤ num * 2 ^ (-d).toNat)

/-- The datum of the format nearest to the rational `num / den ≥ 0` (`den > 0`) with the
sign `neg`, ties going to the even significand; an infinity when that lies beyond the
greatest finite datum. -/
def round (f : Format) (neg : Bool) (num den : Nat) : Flt :=
  if num = 0 then .fin neg 0 f.qmin
  else
    let d : Int := (floor_log2 num : Int) - (floor_log2 den : Int)
    let e : Int := if at_least_pow2 num den d then d else d - 1
    let q : Int := max (e - ((f.prec : Int) - 1)) f.qmin
    let a : Nat := if 0 ≤ q then num else num * 2 ^ (-q).toNat
    let b : Nat := if 0 ≤ q then den * 2 ^ q.toNat else den
    let n0 : Nat := a / b
    let r : Nat := a % b
    let n : Nat :=
      if 2 * r < b then n0
      else if b < 2 * r then n0 + 1
      else if n0 % 2 = 0 then n0 else n0 + 1
    if n = 2 ^ f.prec then
      (if q + 1 > f.qmax then .inf neg else .fin neg (2 ^ (f.prec - 1)) (q + 1))
    else
      (if q > f.qmax then .inf neg else .fin neg n q)

/-- The datum nearest to `m * 2^e`. -/
def round_scaled (f : Format) (neg : Bool) (m : Nat) (e : Int) : Flt :=
  if 0 ≤ e then f.round neg (m * 2 ^ e.toNat) 1 else f.round neg m (2 ^ (-e).toNat)

/-- The integer `(-1)^neg * m`. -/
def signed (neg : Bool) (m : Nat) : Int := if neg then -(m : Int) else (m : Int)

/-- Floating-point addition `x + y`. -/
def add (f : Format) : Flt → Flt → Flt
  | .nan, _ => .nan
  | _, .nan => .nan
  | .inf s, .inf t => if s = t then .inf s else .nan
  | .inf s, .fin _ _ _ => .inf s
  | .fin _ _ _, .inf t => .inf t
  | .fin s1 m1 e1, .fin s2 m2 e2 =>
    let e := min e1 e2
    let sum : Int := signed s1 (m1 * 2 ^ (e1 - e).toNat) + signed s2 (m2 * 2 ^ (e2 - e).toNat)
    if sum = 0 then .fin (s1 && s2) 0 f.qmin
    else f.round_scaled (decide (sum < 0)) sum.natAbs e

/-- Floating-point division `x / y`. -/
def div (f : Format) : Flt → Flt → Flt
  | .nan, _ => .nan
  | _, .nan => .nan
  | .inf _, .inf _ => .nan
  | .inf s, .fin t _ _ => .inf (xor s t)
  | .fin s _ _, .inf t => .fin (xor s t) 0 f.qmin
  | .fin s1 m1 e1, .fin s2 m2 e2 =>
    if m2 = 0 then (if m1 = 0 then .nan else .inf (xor s1 s2))
    else if 0 ≤ e1 - e2 then f.round (xor s1 s2) (m1 * 2 ^ (e1 - e2).toNat) m2
    else f.round (xor s1 s2) m1 (m2 * 2 ^ (e2 - e1).toNat)

/-- Conversion of an unsigned integer (a `size_t`) to the format. -/
def of_nat (f : Format) (n : Nat) : Flt := f.round false n 1

/-- Conversion of a signed integer to the format. -/
def of_int (f : Format) (n : Int) : Flt := f.round (decide (n < 0)) n.natAbs 1

/-- Conversion of a datum of another format to the format (`static_cast`). -/
def cast (f : Format) : Flt → Flt
  | .fin neg m e => f.round_scaled neg m e
  | x => x

end Format

/-! ## JSON documents (nlohmann::json) -/

/-- A `nlohmann::json` value. An object lists its members in the order of its
`std::map` (ascending keys); `number_float` holds a `double`. -/
inductive Json
  | null
  | boolean (b : Bool)
  | number_integer (n : Int)
  | number_unsigned (n : Nat)
  | number_float (x : Flt)
  | string (s : Str)
  | array (elems : List Json)
  | object (members : List (Str × Json))

namespace Json

/-- `j[key]` on a non-const document: `null` turns into an empty object, a missing
member is inserted as `null`, any other kind raises `type_error.305`. -/
def index_key (j : Json) (key : Str) : Except Exn Json :=
  match j with
  | .null => .ok .null
  | .object members => .ok ((members.lookup key).getD .null)
  | _ => .error (.type_error 305)

/-- `j[idx]` on a non-const document: `null` turns into an array, an array is filled
up with `null` to reach `idx`, any other kind raises `type_error.305`. -/
def index_pos (j : Json) (idx : Nat) : Except Exn Json :=
  match j with
  | .null => .ok .null
  | .array elems => .ok (elems.getD idx .null)
  | _ => .error (.type_error 305)

/-- The values a range-`for` over `j` visits: the elements of an array, the member
values of an object, nothing for `null`, the value itself for a primitive. -/
def items : Json → List Json
  | .null => []
  | .array elems => elems
  | .object members => members.map Prod.snd
  | j => [j]

/-- `j == s` for a `std::string` `s`: true exactly for the JSON string `s`. -/
def eq_string (j : Json) (s : Str) : Bool :=
  match j with
  | .string t => t == s
  | _ => false

end Json

/-! ## Collaborators -/

/-- A request handed to the HTTP client. -/
inductive Request
  | get (url : Str) (headers : List (Str × Str))
  | post (url : Str) (body : Str) (headers : List (Str × Str))
deriving DecidableEq, Repr

/-- Modelled from the spec: the HTTP client of the repository's `http_client.h`, "a
generic client with post/get operations returning status, body, headers". Each
operation maps the request to the status code and the response body. -/
structure HttpClient where
  get_response : Str → List (Str × Str) → Int × Str
  post_response : Str → Str → List (Str × Str) → Int × Str

/-- Everything outside `text_embedder.cpp` that the remote path consumes: the HTTP
client, the JSON text primitives (`nlohmann::json::parse`, `dump`, each of which
may raise) and the two endpoint constants of `text_embedder.h`. -/
structure World where
  client : HttpClient
  parse : Str → Except Exn Json
  dump : Json → Except Exn Str
  OPENAI_LIST_MODELS : Str
  OPENAI_CREATE_EMBEDDING : Str

/-- Outcome of a call: the requests issued, in order, and what the call returned or
raised. -/
structure Outcome (α : Type) where
  requests : List Request
  result : Except Exn α

/-! ## Remote validation: `is_model_valid(openai_model_path, openai_api_key, num_dims)` -/

/-- The loop of lines 235-240: is there a listed model whose `"id"` equals `model_name`. -/
def find_model (model_name : Str) : List Json → Except Exn Bool
  | [] => .ok false
  | model :: rest =>
    match model.index_key "id".toList with
    | .error e => .error e
    | .ok id => if id.eq_string model_name then .ok true else find_model model_name rest

/-- Lines 248-263: the hard-coded dimensions of a model family. -/
def model_dims (model_name : Str) : Except Exn Nat :=
  if (find model_name "-ada-".toList).isSome then
    match substr model_name (size_sub model_name.length 3) with
    | .error e => .error e
    | .ok tail => if tail = "002".toList then .ok 1536 else .ok 1024
  else if (find model_name "-davinci-".toList).isSome then .ok 12288
  else if (find model_name "-curie-".toList).isSome then .ok 4096
  else if (find model_name "-babbage-".toList).isSome then .ok 2048
  else .ok 768

/-- Lines 231-266: what follows a status-200 listing response `res`. -/
def check_listing (w : World) (openai_model_path res : Str) (num_dims : Nat) :
    Except Exn (OptionResult Bool × Nat) := do
  let models_json ← w.parse res
  let model_name ← substr openai_model_path 7
  let data ← models_json.index_key "data".toList
  let found ← find_model model_name data.items
  if !found then
    return (.error 400 "OpenAI model not found".toList, num_dims)
  let dims ← model_dims model_name
  return (.ok true, dims)

/-- `TextEmbedder::is_model_valid(openai_model_path, openai_api_key, num_dims)`
(lines 215-267). The second component of the value is `num_dims` on return. -/
def is_model_valid_openai (w : World) (openai_model_path openai_api_key : Str)
    (num_dims : Nat) : Outcome (OptionResult Bool × Nat) :=
  if openai_model_path.isEmpty || openai_api_key.isEmpty || openai_model_path.length < 7 then
    ⟨[], .ok (.error 400 "Invalid OpenAI model path or API key".toList, num_dims)⟩
  else
    let headers := [("Authorization".toList, "Bearer ".toList ++ openai_api_key)]
    let response := w.client.get_response w.OPENAI_LIST_MODELS headers
    if response.1 ≠ 200 then
      ⟨[.get w.OPENAI_LIST_MODELS headers],
        .ok (.error 400 ("OpenAI API error: ".toList ++ response.2), num_dims)⟩
    else
      ⟨[.get w.OPENAI_LIST_MODELS headers],
        check_listing w openai_model_path response.2 num_dims⟩

/-- The dimension table as the specification words it: the first matching row, with
"contains" and "ends with" read as infix and suffix of the name. -/
def spec_dims (name : Str) : Nat :=
  if "-ada-".toList <:+: name then
    if "002".toList <:+ name then 1536 else 1024
  else if "-davinci-".toList <:+: name then 12288
  else if "-curie-".toList <:+: name then 4096
  else if "-babbage-".toList <:+: name then 2048
  else 768


/-! ## Tokenization: `Encode` -/

/-- Modelled from the spec: the BERT tokenizer library object `tokenizer_`. `Tokenize`
splits a text into sub-word tokens and `Encode` maps them to vocabulary ids; the
classification and separator ids are those of the "leading classification token" and
the "trailing separator token". -/
structure BertTokenizer where
  Tokenize : Str → List Str
  Encode : List Str → List Int
  cls_token_id : Int
  sep_token_id : Int

/-- Modelled from the spec: `BertTokenizer::AddSpecialToken`, which "appends
model-required boundary tokens (a leading classification token, a trailing separator
token)". -/
def BertTokenizer.AddSpecialToken (t : BertTokenizer) (ids : List Int) : List Int :=
  t.cls_token_id :: ids ++ [t.sep_token_id]

/-- Modelled from the spec: `BertTokenizer::GenerateTypeId`, which "generates segment
IDs (all zero, since single-segment input is assumed)", one for each id and each of
the two boundary tokens. -/
def BertTokenizer.GenerateTypeId (_t : BertTokenizer) (ids : List Int) : List Int :=
  List.replicate (ids.length + 2) 0

/-- `std::vector<int64_t>::resize(n)`: the first `n` elements, filled up with zeros. -/
def resize (v : List Int) (n : Nat) : List Int :=
  v.take n ++ List.replicate (n - v.length) 0

/-- The struct `encoded_input_t`. -/
structure encoded_input_t where
  input_ids : List Int
  token_type_ids : List Int
  attention_mask : List Int
deriving DecidableEq, Repr

/-- `TextEmbedder::Encode` (lines 37-50). -/
def Encode (tokenizer_ : BertTokenizer) (text : Str) : encoded_input_t :=
  let encoded := tokenizer_.Encode (tokenizer_.Tokenize text)
  let input_ids := tokenizer_.AddSpecialToken encoded
  let token_type_ids := tokenizer_.GenerateTypeId encoded
  let attention_mask := List.replicate input_ids.length (1 : Int)
  if input_ids.length > 512 then
    ⟨resize input_ids 512, resize token_type_ids 512, resize attention_mask 512⟩
  else
    ⟨input_ids, token_type_ids, attention_mask⟩

/-! ## Local validation: `is_model_valid(model_path, num_dims)` -/

/-- Modelled from the spec: what the inference engine exposes of an opened model graph,
the names of its inputs and the name and shape of each output tensor, in enumeration
order. A dynamic dimension is reported as `-1`. -/
structure Session where
  input_names : List Str
  outputs : List (Str × List Int)

/-- What lies at an absolute model path: nothing, a file the inference engine fails to
open (it raises), or a model graph. -/
inductive ModelFile
  | missing
  | unreadable
  | graph (session : Session)

/-- The collaborators of the local path: `TextEmbedderManager::get_absolute_model_path`
and the content of the file system. -/
structure ModelStore where
  get_absolute_model_path : Str → Str
  file : Str → ModelFile

/-- Conversion of an `int64_t` to `unsigned int` (32 bits). -/
def to_unsigned_int (x : Int) : Nat := (x % 2 ^ 32).toNat

/-- The condition of lines 24 and 199:
`shape.size() == 3 && shape[0] == -1 && shape[1] == -1 && shape[2] > 0`. -/
def is_embedding_shape (shape : List Int) : Bool :=
  shape.length == 3 && shape.getD 0 0 == -1 && shape.getD 1 0 == -1 && decide (shape.getD 2 0 > 0)

/-- The loop of lines 197-204: `found_output_tensor` and `num_dims` after it. -/
def find_output_tensor (num_dims : Nat) : List (Str × List Int) → Bool × Nat
  | [] => (false, num_dims)
  | (_, shape) :: rest =>
    if is_embedding_shape shape then (true, to_unsigned_int (shape.getD 2 0))
    else find_output_tensor num_dims rest

/-- The loop of lines 22-29 of the local constructor: `output_tensor_name` after it
(it starts out empty). -/
def select_output_tensor_name : List (Str × List Int) → Str
  | [] => []
  | (name, shape) :: rest =>
    if is_embedding_shape shape then name else select_output_tensor_name rest

/-- `TextEmbedder::is_model_valid(model_path, num_dims)` (lines 160-212). The second
component of the value is `num_dims` on return. -/
def is_model_valid (store : ModelStore) (model_path : Str) (num_dims : Nat) :
    Except Exn (Bool × Nat) :=
  match store.file (store.get_absolute_model_path model_path) with
  | .missing => .ok (false, num_dims)
  | .unreadable => .error .ort_exception
  | .graph session =>
    if session.input_names.length ≠ 3 then .ok (false, num_dims)
    else if session.input_names.getD 0 [] ≠ "input_ids".toList then .ok (false, num_dims)
    else if session.input_names.getD 1 [] ≠ "attention_mask".toList then .ok (false, num_dims)
    else if session.input_names.getD 2 [] ≠ "token_type_ids".toList then .ok (false, num_dims)
    else
      let found := find_output_tensor num_dims session.outputs
      if !found.1 then .ok (false, found.2) else .ok (true, found.2)

/-! ## Pooling: `mean_pooling` -/

/-- The arithmetic of the element type of `mean_pooling`: the initial `0`, `+=`, `/` and
the conversion of `inputs.size()`. -/
structure Arith (F : Type) where
  zero : F
  add : F → F → F
  div : F → F → F
  of_size : Nat → F

/-- The arithmetic of `float`: IEEE-754 binary32. -/
def float_arith : Arith Flt where
  zero := .fin false 0 (-149)
  add := binary32.add
  div := binary32.div
  of_size := binary32.of_nat

/-- The inner loop (lines 58-60): `sum` after `inputs[j][i]` is added for every row `j`;
`none` when a row has no element `i` (an out-of-bounds read). -/
def column_sum {F : Type} (A : Arith F) (i : Nat) : List (List F) → F → Option F
  | [], sum => some sum
  | row :: rest, sum =>
    match row[i]? with
    | none => none
    | some x => column_sum A i rest (A.add sum x)

/-- The outer loop (lines 56-62) over the column indices `cols`. -/
def pool_columns {F : Type} (A : Arith F) (inputs : List (List F)) :
    List Nat → Option (List F)
  | [] => some []
  | i :: cols =>
    match column_sum A i inputs A.zero with
    | none => none
    | some sum =>
      match pool_columns A inputs cols with
      | none => none
      | some rest => some (A.div sum (A.of_size inputs.length) :: rest)

/-- `TextEmbedder::mean_pooling` (lines 53-64), over the arithmetic `A` (`float_arith`
in the program); `none` stands for undefined behaviour (`inputs[0]` of an empty
matrix, a row shorter than the first). -/
def mean_pooling {F : Type} (A : Arith F) (inputs : List (List F)) : Option (List F) :=
  match inputs with
  | [] => none
  | row0 :: _ => pool_columns A inputs (List.range row0.length)

/-- The `float` sum of `T` copies of `x`, accumulated from `0` as the inner loop does. -/
def repeated_sum {F : Type} (A : Arith F) (T : Nat) (x : F) : F :=
  (fun sum => A.add sum x)^[T] A.zero

/-! ## Exactly representable values -/

/-- The rational value of a finite datum (0 for an infinity and for a NaN). -/
def Flt.value : Flt → ℚ
  | .fin neg m e => (if neg then -(m : ℚ) else (m : ℚ)) * (2 : ℚ) ^ e
  | _ => 0

/-- Is the datum a finite one of the format in canonical form, other than negative zero. -/
def Format.proper (f : Format) : Flt → Bool
  | .fin neg m e => f.represents (.fin neg m e) && (decide (0 < m) || !neg)
  | _ => false

/-- The rational `v` is exactly the value of a `float`. -/
def exact_float (v : ℚ) : Prop :=
  ∃ y, binary32.proper y = true ∧ y.value = v

/-- Column `i` of a matrix, in row order. -/
def column (i : Nat) (inputs : List (List Flt)) : List Flt :=
  inputs.map fun row => row.getD i float_arith.zero

/-- No addition rounds when the entries `xs` are accumulated from 0 in their order: every
partial sum is exactly the value of a `float`. -/
def accumulates_exactly (xs : List Flt) : Prop :=
  ∀ k, k ≤ xs.length → exact_float ((xs.take k).map Flt.value).sum

/-! ## Embedding: `Embed` and `batch_embed` -/

namespace Json

/-- `j.get<float>()`: a number converted to `float` (a boolean counts as 0 or 1), any
other kind raises `type_error.302`. -/
def get_float (j : Json) : Except Exn Flt :=
  match j with
  | .number_float x => .ok (binary32.cast x)
  | .number_integer n => .ok (binary32.of_int n)
  | .number_unsigned n => .ok (binary32.of_nat n)
  | .boolean b => .ok (binary32.of_nat (if b then 1 else 0))
  | _ => .error (.type_error 302)

/-- The element-wise conversion of `get<std::vector<float>>()`. -/
def get_floats : List Json → Except Exn (List Flt)
  | [] => .ok []
  | j :: rest =>
    match get_float j with
    | .error e => .error e
    | .ok x =>
      match get_floats rest with
      | .error e => .error e
      | .ok xs => .ok (x :: xs)

/-- `j.get<std::vector<float>>()`: an array is converted element by element, any other
kind raises `type_error.302`. -/
def get_float_vector (j : Json) : Except Exn (List Flt) :=
  match j with
  | .array elems => get_floats elems
  | _ => .error (.type_error 302)

end Json

/-- Modelled from the spec: an instance of class `TextEmbedder`, "a tagged variant
{Local(ModelHandle), Remote(ProviderConfig)}" whose mode is "fixed at construction and
never switches"; `is_openai()` of `text_embedder.h` is the tag. The local variant holds the tokenizer, the forward pass of the opened
session (`Run`, from the encoded input and the output name to the shape and the row-major
data of that output tensor, or an exception) and the output tensor name the constructor
selected; the remote variant holds what the remote constructor (lines 32-34) stores. -/
inductive Embedder
  | local_model (tokenizer_ : BertTokenizer)
      (Run : encoded_input_t → Str → Except Exn (List Int × List Flt))
      (output_tensor_name : Str)
  | openai (openai_model_path openai_api_key : Str)

/-- Modelled from the spec: `Option<T>::get()`, the value of a result (an empty vector
for an error). -/
def OptionResult.get {α : Type} : OptionResult (List α) → List α
  | .ok value => value
  | .error _ _ => []

/-- The headers of lines 71-72 and 135-136. -/
def embedding_headers (openai_api_key : Str) : List (Str × Str) :=
  [("Authorization".toList, "Bearer ".toList ++ openai_api_key),
   ("Content-Type".toList, "application/json".toList)]

/-- The request document `req_body` of lines 74-77 and 130-133; `input` is the text or
the array of the texts. -/
def request_body (input : Json) (model : Str) : Json :=
  .object [("input".toList, input), ("model".toList, .string model)]

/-- Line 83: `nlohmann::json::parse(res)["data"][0]["embedding"].get<std::vector<float>>()`. -/
def parse_embedding (w : World) (res : Str) : Except Exn (List Flt) := do
  let doc ← w.parse res
  let data ← doc.index_key "data".toList
  let first ← data.index_pos 0
  let embedding ← first.index_key "embedding".toList
  embedding.get_float_vector

/-- The loop of lines 149-151: `outputs` after the embedding of every entry is pushed. -/
def collect_embeddings : List Json → Except Exn (List (List Flt))
  | [] => .ok []
  | data :: rest =>
    match data.index_key "embedding".toList with
    | .error e => .error e
    | .ok embedding =>
      match embedding.get_float_vector with
      | .error e => .error e
      | .ok v =>
        match collect_embeddings rest with
        | .error e => .error e
        | .ok vs => .ok (v :: vs)

/-- Lines 148-151: the embeddings of the response `res`, in the order listed. -/
def parse_embeddings (w : World) (res : Str) : Except Exn (List (List Flt)) := do
  let res_json ← w.parse res
  let data ← res_json.index_key "data".toList
  collect_embeddings data.items

/-- The remote branch of `Embed` and of `batch_embed` up to the response: the request
document is built (`substr(7)` may raise), serialised (`dump` may raise) and posted.
The value is the request issued with the status code and the body of the response. -/
def post_embedding_request (w : World) (openai_model_path openai_api_key : Str)
    (input : Json) : Except Exn (Request × Int × Str) :=
  match substr openai_model_path 7 with
  | .error e => .error e
  | .ok model =>
    match w.dump (request_body input model) with
    | .error e => .error e
    | .ok body =>
      .ok (.post w.OPENAI_CREATE_EMBEDDING body (embedding_headers openai_api_key),
        w.client.post_response w.OPENAI_CREATE_EMBEDDING body
          (embedding_headers openai_api_key))

/-- Lines 104-115: the rows of the output tensor of shape `(1, shape[1], shape[2])`. -/
def tensor_rows (shape : List Int) (data : List Flt) : Option (List (List Flt)) :=
  match shape[1]?, shape[2]? with
  | some rows, some cols =>
    (List.range rows.toNat).mapM fun i =>
      (List.range cols.toNat).mapM fun j => data[i * cols.toNat + j]?
  | _, _ => none

/-- The local branch of `Embed` (lines 85-118): tokenize, run the model, pool. -/
def embed_local (tokenizer_ : BertTokenizer)
    (Run : encoded_input_t → Str → Except Exn (List Int × List Flt))
    (output_tensor_name text : Str) : Except Exn (OptionResult (List Flt)) :=
  match Run (Encode tokenizer_ text) output_tensor_name with
  | .error e => .error e
  | .ok (shape, data) =>
    match tensor_rows shape data with
    | none => .error .undefined_behaviour
    | some output =>
      match mean_pooling float_arith output with
      | none => .error .undefined_behaviour
      | some pooled_output => .ok (.ok pooled_output)

/-- `TextEmbedder::Embed` (lines 66-120). -/
def Embed (w : World) (embedder : Embedder) (text : Str) : Outcome (OptionResult (List Flt)) :=
  match embedder with
  | .openai openai_model_path openai_api_key =>
    match post_embedding_request w openai_model_path openai_api_key (.string text) with
    | .error e => ⟨[], .error e⟩
    | .ok (request, res_code, res) =>
      if res_code ≠ 200 then
        ⟨[request], .ok (.error 400 ("OpenAI API error: ".toList ++ res))⟩
      else
        ⟨[request], (parse_embedding w res).map .ok⟩
  | .local_model tokenizer_ Run output_tensor_name =>
    ⟨[], embed_local tokenizer_ Run output_tensor_name text⟩

/-- The loop of lines 126-128: `outputs` after `Embed(input).get()` is pushed for every
input of a local instance. -/
def embed_each (tokenizer_ : BertTokenizer)
    (Run : encoded_input_t → Str → Except Exn (List Int × List Flt))
    (output_tensor_name : Str) : List Str → Except Exn (List (List Flt))
  | [] => .ok []
  | input :: rest =>
    match embed_local tokenizer_ Run output_tensor_name input with
    | .error e => .error e
    | .ok embedded =>
      match embed_each tokenizer_ Run output_tensor_name rest with
      | .error e => .error e
      | .ok outputs => .ok (embedded.get :: outputs)

/-- `TextEmbedder::batch_embed` (lines 122-154). -/
def batch_embed (w : World) (embedder : Embedder) (inputs : List Str) :
    Outcome (OptionResult (List (List Flt))) :=
  match embedder with
  | .local_model tokenizer_ Run output_tensor_name =>
    ⟨[], (embed_each tokenizer_ Run output_tensor_name inputs).map .ok⟩
  | .openai openai_model_path openai_api_key =>
    match post_embedding_request w openai_model_path openai_api_key
        (.array (inputs.map .string)) with
    | .error e => ⟨[], .error e⟩
    | .ok (request, res_code, res) =>
      if res_code ≠ 200 then
        ⟨[request], .ok (.error 400 res)⟩
      else
        ⟨[request], (parse_embeddings w res).map .ok⟩

/-- The response body `res` is the JSON text of a document of the provider's response
shape, `{"data": [{"embedding": [numbers]}, ...]}` (other members may be present), and
`vectors` are its embeddings converted to `float`, in the order listed. -/
def embedding_response (w : World) (res : Str) (vectors : List (List Flt)) : Prop :=
  ∃ members rows, w.parse res = .ok (.object members)
    ∧ members.lookup "data".toList = some (.array rows)
    ∧ List.Forall₂ (fun row v => ∃ fields nums, row = Json.object fields
        ∧ fields.lookup "embedding".toList = some (.array nums)
        ∧ Json.get_floats nums = .ok v) rows vectors

/-! ## Fixtures -/

/-- A provider fixture: every request is answered with `status` and `body`; `parsed` is what
`nlohmann::json::parse` makes of `body` (any other text is rejected), `dumped` what `dump`
makes of the request document of `Embed`, and `dumped_list` of that of `batch_embed`. -/
def fixture (status : Int) (body : Str) (parsed : Except Exn Json)
    (dumped dumped_list : Except Exn Str) : World where
  client := ⟨fun _ _ => (status, body), fun _ _ _ => (status, body)⟩
  parse := fun s => if s = body then parsed else .error .parse_error
  dump := fun doc =>
    match doc with
    | .object [(_, .array _), _] => dumped_list
    | _ => dumped
  OPENAI_LIST_MODELS := "https://api.openai.com/v1/models".toList
  OPENAI_CREATE_EMBEDDING := "https://api.openai.com/v1/embeddings".toList

/-- The listing `{"data":[{"id":"text-ada-002"},{"id":"gpt-4"}]}`. -/
def listing_doc : Json :=
  .object [("data".toList, .array [
    .object [("id".toList, .string "text-ada-002".toList)],
    .object [("id".toList, .string "gpt-4".toList)]])]

/-- A provider whose listing names `text-ada-002` and `gpt-4`. -/
def listing_world : World :=
  fixture 200 "\x7b\"data\":[\x7b\"id\":\"text-ada-002\"\x7d,\x7b\"id\":\"gpt-4\"\x7d]\x7d".toList
    (.ok listing_doc)
    (.ok "\x7b\"input\":\"hello\",\"model\":\"text-ada-002\"\x7d".toList)
    (.ok "\x7b\"input\":[\"hello\"],\"model\":\"text-ada-002\"\x7d".toList)

/-- A tokenizer fixture with a vocabulary of single characters: every character of the
text is one token, and its id is its character code; 101 and 102 are the ids of the
classification and the separator token. -/
def char_tokenizer : BertTokenizer where
  Tokenize := fun text => text.map fun c => [c]
  Encode := fun tokens => tokens.map fun t => ((t.headD ' ').toNat : Int)
  cls_token_id := 101
  sep_token_id := 102

/-- A store fixture holding one model graph, whatever the path. -/
def store_of (session : Session) : ModelStore where
  get_absolute_model_path := fun p => "/models/".toList ++ p
  file := fun _ => .graph session

/-- The three input names the embedder feeds. -/
def bert_inputs : List Str :=
  ["input_ids".toList, "attention_mask".toList, "token_type_ids".toList]

/-- A graph with the three expected inputs and one output of shape
`(-1, -1, 4294967680)`, where `4294967680 = 2^32 + 384`. -/
def wide_session : Session where
  input_names := bert_inputs
  outputs := [("last_hidden_state".toList, [-1, -1, 4294967680])]

/-- A graph with two inputs only and a well-shaped output. -/
def two_input_session : Session where
  input_names := ["input_ids".toList, "attention_mask".toList]
  outputs := [("last_hidden_state".toList, [-1, -1, 384])]

/-- A graph with the three expected inputs, a pooled output of rank 2 and a token output of
shape `(-1, -1, 384)`. -/
def minilm_session : Session where
  input_names := bert_inputs
  outputs := [("pooler_output".toList, [-1, 384]), ("last_hidden_state".toList, [-1, -1, 384])]

/-- The `float` nearest to 0.1. -/
def f0_1 : Flt := .fin false 13421773 (-27)

/-- The `float` 1. -/
def f1 : Flt := .fin false 8388608 (-23)

/-- The `float` 16777216, which is `2^24`. -/
def f16777216 : Flt := .fin false 8388608 1

/-- The document `{"data":[{"embedding":[1]}]}`. -/
def one_row_doc : Json :=
  .object [("data".toList, .array [
    .object [("embedding".toList, .array [.number_unsigned 1])]])]

/-- A provider that answers every embedding request with status 200 and one embedding. -/
def one_row_world : World :=
  fixture 200 "\x7b\"data\":[\x7b\"embedding\":[1]\x7d]\x7d".toList (.ok one_row_doc)
    (.ok "\x7b\"input\":\"a\",\"model\":\"text-ada-002\"\x7d".toList)
    (.ok "\x7b\"input\":[\"a\",\"b\",\"c\"],\"model\":\"text-ada-002\"\x7d".toList)

/-- The document `{"data":[{"embedding":[1]},{"embedding":[16777216]},{"embedding":[1]}]}`. -/
def three_row_doc : Json :=
  .object [("data".toList, .array [
    .object [("embedding".toList, .array [.number_unsigned 1])],
    .object [("embedding".toList, .array [.number_unsigned 16777216])],
    .object [("embedding".toList, .array [.number_unsigned 1])]])]

/-- A provider that answers every embedding request with status 200 and three embeddings. -/
def three_row_world : World :=
  fixture 200
    "\x7b\"data\":[\x7b\"embedding\":[1]\x7d,\x7b\"embedding\":[16777216]\x7d,\x7b\"embedding\":[1]\x7d]\x7d".toList
    (.ok three_row_doc)
    (.ok "\x7b\"input\":\"a\",\"model\":\"text-ada-002\"\x7d".toList)
    (.ok "\x7b\"input\":[\"a\",\"b\",\"c\"],\"model\":\"text-ada-002\"\x7d".toList)

/-- A proxy that answers every request with status 200 and a page that is not JSON. -/
def proxy_world : World :=
  fixture 200 "<html>Service Unavailable</html>".toList (.error .parse_error)
    (.ok "\x7b\"input\":\"hello\",\"model\":\"text-ada-002\"\x7d".toList)
    (.ok "\x7b\"input\":[\"hello\"],\"model\":\"text-ada-002\"\x7d".toList)

/-- A provider that answers every request with status 200 and the document `{}`. -/
def empty_doc_world : World :=
  fixture 200 "\x7b\x7d".toList (.ok (.object []))
    (.ok "\x7b\"input\":\"hello\",\"model\":\"text-ada-002\"\x7d".toList)
    (.ok "\x7b\"input\":[\"hello\"],\"model\":\"text-ada-002\"\x7d".toList)

/-- A provider that answers every request with status 401 and an error document. -/
def unauthorized_world : World :=
  fixture 401 "\x7b\"error\":\x7b\"message\":\"Incorrect API key provided\"\x7d\x7d".toList
    (.ok (.object [("error".toList,
      .object [("message".toList, .string "Incorrect API key provided".toList)])]))
    (.ok "\x7b\"input\":\"hello\",\"model\":\"text-ada-002\"\x7d".toList)
    (.ok "\x7b\"input\":[\"hello\"],\"model\":\"text-ada-002\"\x7d".toList)

/-- The serialiser at a request whose text is not UTF-8 (the text is the single byte
`0xFF`): `dump` raises `type_error.316`. -/
def invalid_text_world : World :=
  fixture 200 "\x7b\"data\":[\x7b\"embedding\":[1]\x7d]\x7d".toList (.ok one_row_doc)
    (.error (.type_error 316)) (.error (.type_error 316))

/-- The `float` 2. -/
def f2 : Flt := .fin false 8388608 (-22)

/-- The `float` 3. -/
def f3 : Flt := .fin false 12582912 (-22)

/-- The `float` 4. -/
def f4 : Flt := .fin false 8388608 (-21)

/-- The `float` 5. -/
def f5 : Flt := .fin false 10485760 (-21)

/-- The `float` 6. -/
def f6 : Flt := .fin false 12582912 (-21)

/-- The `float` 7. -/
def f7 : Flt := .fin false 14680064 (-21)

/-- The greatest finite `float`, `FLT_MAX = (2^24 - 1) * 2^104`. -/
def float_max : Flt := .fin false 16777215 104

/-- The `float` negative zero. -/
def negative_zero : Flt := .fin true 0 (-149)

/-! ## Lemmas on strings -/

theorem findFrom_isSome (pat : Str) (s : Str) (i : Nat) :
    (findFrom pat s i).isSome = true ↔ pat <:+: s := by
  induction s generalizing i with
  | nil =>
    unfold findFrom
    by_cases h : pat = []
    · simp [h]
    · simp [h]
  | cons c cs ih =>
    unfold findFrom
    by_cases h : pat.isPrefixOf (c :: cs) = true
    · simp only [h, if_true, Option.isSome_some, true_iff]
      exact (List.isPrefixOf_iff_prefix.mp h).isInfix
    · simp only [h, if_false, Bool.false_eq_true]
      rw [ih, List.infix_cons_iff]
      constructor
      · exact Or.inr
      · rintro (hp | hi)
        · exact absurd (List.isPrefixOf_iff_prefix.mpr hp) h
        · exact hi

theorem find_isSome (s pat : Str) : (find s pat).isSome = true ↔ pat <:+: s :=
  findFrom_isSome pat s 0

theorem substr_tail3 (name : Str) (h : 3 ≤ name.length) :
    substr name (size_sub name.length 3) = .ok (name.drop (name.length - 3)) := by
  have hs : size_sub name.length 3 = name.length - 3 := by
    unfold size_sub
    rw [if_pos h]
  have hle : ¬ name.length - 3 > name.length := by omega
  rw [hs]
  unfold substr
  rw [if_neg hle]

theorem drop_tail3_eq (name : Str) (h : 3 ≤ name.length) :
    name.drop (name.length - 3) = "002".toList ↔ "002".toList <:+ name := by
  constructor
  · intro he
    rw [← he]
    exact List.drop_suffix _ _
  · rintro ⟨t, ht⟩
    have hl : t.length = name.length - 3 := by
      have := congrArg List.length ht
      simp only [List.length_append] at this
      have h3 : ("002".toList).length = 3 := rfl
      omega
    rw [← hl, ← ht, List.drop_left]

theorem ada_length (name : Str) (h : "-ada-".toList <:+: name) : 3 ≤ name.length := by
  have := h.length_le
  have h5 : ("-ada-".toList).length = 5 := rfl
  omega

/-- The code of lines 248-263 computes the table of the specification and never raises. -/
theorem model_dims_eq_spec (name : Str) : model_dims name = .ok (spec_dims name) := by
  unfold model_dims spec_dims
  by_cases hada : "-ada-".toList <:+: name
  · have h3 := ada_length name hada
    rw [if_pos ((find_isSome _ _).mpr hada), if_pos hada, substr_tail3 name h3]
    by_cases h2 : "002".toList <:+ name
    · rw [if_pos h2]
      simp only [(drop_tail3_eq name h3).mpr h2, if_true]
    · rw [if_neg h2]
      have : ¬ name.drop (name.length - 3) = "002".toList :=
        fun he => h2 ((drop_tail3_eq name h3).mp he)
      simp only [this, if_false]
  · have hf : ∀ pat : Str, ¬ pat <:+: name → ¬ (find name pat).isSome = true :=
      fun pat hp hs => hp ((find_isSome _ _).mp hs)
    rw [if_neg (hf _ hada), if_neg hada]
    by_cases hdav : "-davinci-".toList <:+: name
    · rw [if_pos ((find_isSome _ _).mpr hdav), if_pos hdav]
    · rw [if_neg (hf _ hdav), if_neg hdav]
      by_cases hcur : "-curie-".toList <:+: name
      · rw [if_pos ((find_isSome _ _).mpr hcur), if_pos hcur]
      · rw [if_neg (hf _ hcur), if_neg hcur]
        by_cases hbab : "-babbage-".toList <:+: name
        · rw [if_pos ((find_isSome _ _).mpr hbab), if_pos hbab]
        · rw [if_neg (hf _ hbab), if_neg hbab]

/-- A listing of objects in which some object has the id `name` is searched without
raising and the search succeeds. -/
theorem find_model_listed (name : Str) (models : List Json)
    (hobj : ∀ m ∈ models, ∃ members, m = Json.object members)
    (hmem : ∃ members, Json.object members ∈ models ∧
      members.lookup "id".toList = some (Json.string name)) :
    find_model name models = .ok true := by
  induction models with
  | nil =>
    obtain ⟨_, hm, _⟩ := hmem
    exact absurd hm (List.not_mem_nil _)
  | cons m rest ih =>
    obtain ⟨mm, hmm⟩ := hobj m (List.mem_cons_self _ _)
    subst hmm
    unfold find_model
    simp only [Json.index_key]
    by_cases hid : (((mm.lookup "id".toList).getD Json.null).eq_string name) = true
    · rw [if_pos hid]
    · rw [if_neg hid]
      apply ih (fun m hm => hobj m (List.mem_cons_of_mem _ hm))
      obtain ⟨members, hin, hlook⟩ := hmem
      rcases List.mem_cons.mp hin with heq | hin'
      · exfalso
        apply hid
        have : members = mm := by injection heq
        subst this
        rw [hlook]
        simp [Json.eq_string]
      · exact ⟨members, hin', hlook⟩

/-! ## Remote validation -/

/-- C1: for a model identifier of length at least 7 and a non-empty credential, when the
listing request returns status 200 with a listing (an object whose `data` is an array of
objects) that has a row whose `id` is the identifier from index 7 on, remote validation
succeeds and `num_dims` is the first matching row of the dimension table applied to that
stripped name; the code gives 1536, 1024, 12288, 4096, 2048 and 768 for the six names of
the specification. -/
theorem remote_validation_dims (w : World) (openai_model_path openai_api_key res : Str)
    (num_dims : Nat) (members : List (Str × Json)) (models : List Json)
    (hlen : 7 ≤ openai_model_path.length) (hkey : openai_api_key ≠ [])
    (hstatus : w.client.get_response w.OPENAI_LIST_MODELS
      [("Authorization".toList, "Bearer ".toList ++ openai_api_key)] = (200, res))
    (hparse : w.parse res = .ok (Json.object members))
    (hdata : members.lookup "data".toList = some (Json.array models))
    (hobj : ∀ m ∈ models, ∃ fields, m = Json.object fields)
    (hlisted : ∃ fields, Json.object fields ∈ models ∧
      fields.lookup "id".toList = some (Json.string (openai_model_path.drop 7))) :
    (is_model_valid_openai w openai_model_path openai_api_key num_dims).result
        = .ok (.ok true, spec_dims (openai_model_path.drop 7))
    ∧ model_dims "text-ada-002".toList = .ok 1536
    ∧ model_dims "text-ada-001".toList = .ok 1024
    ∧ model_dims "text-davinci-003".toList = .ok 12288
    ∧ model_dims "text-curie-001".toList = .ok 4096
    ∧ model_dims "text-babbage-001".toList = .ok 2048
    ∧ model_dims "gpt-4".toList = .ok 768 := by
  refine ⟨?_, rfl, rfl, rfl, rfl, rfl, rfl⟩
  have hpath : openai_model_path ≠ [] := by
    intro h
    rw [h] at hlen
    simp at hlen
  have hguard : (openai_model_path.isEmpty || openai_api_key.isEmpty
      || decide (openai_model_path.length < 7)) = false := by
    simp only [Bool.or_eq_false_iff, List.isEmpty_eq_false, decide_eq_false_iff_not]
    exact ⟨⟨hpath, hkey⟩, by omega⟩
  have hsub : substr openai_model_path 7 = .ok (openai_model_path.drop 7) := by
    unfold substr
    rw [if_neg (by omega)]
  unfold is_model_valid_openai
  rw [hguard]
  simp only [Bool.false_eq_true, if_false, hstatus, ne_eq, not_true_eq_false]
  unfold check_listing
  rw [hparse, hsub]
  simp only [Json.index_key, hdata, Option.getD_some, Json.items, bind, Except.bind,
    find_model_listed _ models hobj hlisted, model_dims_eq_spec]
  rfl

/-- Witness of C1: `openai/text-ada-002` with a credential, against a provider that lists
`text-ada-002`. -/
theorem remote_validation_dims_witness :
    (is_model_valid_openai listing_world "openai/text-ada-002".toList "sk-test".toList 0).result
      = .ok (.ok true, 1536) :=
  (remote_validation_dims listing_world "openai/text-ada-002".toList "sk-test".toList
    "\x7b\"data\":[\x7b\"id\":\"text-ada-002\"\x7d,\x7b\"id\":\"gpt-4\"\x7d]\x7d".toList 0
    [("data".toList, .array [
      .object [("id".toList, .string "text-ada-002".toList)],
      .object [("id".toList, .string "gpt-4".toList)]])]
    [.object [("id".toList, .string "text-ada-002".toList)],
      .object [("id".toList, .string "gpt-4".toList)]]
    (by decide) (by decide) rfl rfl rfl
    (by
      intro m hm
      simp only [List.mem_cons, List.mem_singleton, List.not_mem_nil, or_false] at hm
      rcases hm with h | h
      · exact ⟨_, h⟩
      · exact ⟨_, h⟩)
    ⟨[("id".toList, .string "text-ada-002".toList)], List.mem_cons_self _ _, rfl⟩).1

/-- C4: with an empty credential, or a model identifier that is empty or shorter than 7
characters, remote validation returns the error 400 "Invalid OpenAI model path or API key"
and issues no request (`num_dims` is left as it was). -/
theorem remote_validation_invalid_argument (w : World)
    (openai_model_path openai_api_key : Str) (num_dims : Nat)
    (h : openai_api_key = [] ∨ openai_model_path = [] ∨ openai_model_path.length < 7) :
    (is_model_valid_openai w openai_model_path openai_api_key num_dims).requests = []
    ∧ (is_model_valid_openai w openai_model_path openai_api_key num_dims).result
        = .ok (.error 400 "Invalid OpenAI model path or API key".toList, num_dims) := by
  have hguard : (openai_model_path.isEmpty || openai_api_key.isEmpty
      || decide (openai_model_path.length < 7)) = true := by
    rcases h with h | h | h
    · simp [h]
    · simp [h]
    · simp [h]
  unfold is_model_valid_openai
  rw [hguard]
  exact ⟨rfl, rfl⟩

/-- Witness of C4: a listed model with an empty credential. -/
theorem remote_validation_invalid_argument_witness :
    (is_model_valid_openai listing_world "openai/text-ada-002".toList [] 0).requests = []
    ∧ (is_model_valid_openai listing_world "openai/text-ada-002".toList [] 0).result
        = .ok (.error 400 "Invalid OpenAI model path or API key".toList, 0) :=
  remote_validation_invalid_argument listing_world "openai/text-ada-002".toList [] 0
    (Or.inl rfl)

/-! ## Tokenization -/

theorem resize_of_le (v : List Int) (n : Nat) (h : n ≤ v.length) : resize v n = v.take n := by
  unfold resize
  rw [Nat.sub_eq_zero_of_le h]
  simp

theorem AddSpecialToken_length (t : BertTokenizer) (ids : List Int) :
    (t.AddSpecialToken ids).length = ids.length + 2 := by
  simp [BertTokenizer.AddSpecialToken]

/-- The three sequences `Encode` returns when nothing is cut off. -/
theorem Encode_short (t : BertTokenizer) (text : Str)
    (h : (t.Encode (t.Tokenize text)).length + 2 ≤ 512) :
    Encode t text = ⟨t.AddSpecialToken (t.Encode (t.Tokenize text)),
      t.GenerateTypeId (t.Encode (t.Tokenize text)),
      List.replicate (t.AddSpecialToken (t.Encode (t.Tokenize text))).length 1⟩ := by
  unfold Encode
  simp only [AddSpecialToken_length]
  rw [if_neg (by omega)]

/-- The three sequences `Encode` returns when the 512 limit is exceeded. -/
theorem Encode_long (t : BertTokenizer) (text : Str)
    (h : 512 < (t.Encode (t.Tokenize text)).length + 2) :
    Encode t text = ⟨(t.AddSpecialToken (t.Encode (t.Tokenize text))).take 512,
      (t.GenerateTypeId (t.Encode (t.Tokenize text))).take 512,
      (List.replicate (t.AddSpecialToken (t.Encode (t.Tokenize text))).length (1 : Int)).take
        512⟩ := by
  unfold Encode
  simp only [AddSpecialToken_length]
  rw [if_pos (by omega)]
  rw [resize_of_le _ _ (by rw [AddSpecialToken_length]; omega),
    resize_of_le _ _ (by simp [BertTokenizer.GenerateTypeId]; omega),
    resize_of_le _ _ (by simp; omega)]

/-- All three sequences of `Encode` have the length `min (n + 2) 512`, for `n` sub-word ids. -/
theorem Encode_lengths_min (t : BertTokenizer) (text : Str) :
    (Encode t text).input_ids.length = min ((t.Encode (t.Tokenize text)).length + 2) 512
    ∧ (Encode t text).token_type_ids.length = min ((t.Encode (t.Tokenize text)).length + 2) 512
    ∧ (Encode t text).attention_mask.length
        = min ((t.Encode (t.Tokenize text)).length + 2) 512 := by
  by_cases h : (t.Encode (t.Tokenize text)).length + 2 ≤ 512
  · rw [Encode_short t text h]
    simp only [AddSpecialToken_length, BertTokenizer.GenerateTypeId, List.length_replicate]
    omega
  · rw [Encode_long t text (by omega)]
    simp only [AddSpecialToken_length, BertTokenizer.GenerateTypeId, List.length_replicate,
      List.length_take]
    omega

theorem char_tokenizer_count (text : Str) :
    (char_tokenizer.Encode (char_tokenizer.Tokenize text)).length = text.length := by
  simp [char_tokenizer]

/-- C2: when the encoding (sub-word ids plus the two boundary tokens) is longer than 512,
each of the three sequences `Encode` returns is the first 512 elements of its untruncated
sequence and has length exactly 512; element 0 of `input_ids` is the classification token
and element 511 is the sub-word id at index 510, not a separator appended anew. -/
theorem Encode_truncates (t : BertTokenizer) (text : Str)
    (h : 512 < (t.AddSpecialToken (t.Encode (t.Tokenize text))).length) :
    (Encode t text).input_ids = (t.AddSpecialToken (t.Encode (t.Tokenize text))).take 512
    ∧ (Encode t text).token_type_ids
        = (t.GenerateTypeId (t.Encode (t.Tokenize text))).take 512
    ∧ (Encode t text).attention_mask
        = (List.replicate (t.AddSpecialToken (t.Encode (t.Tokenize text))).length (1 : Int)).take
            512
    ∧ (Encode t text).input_ids.length = 512
    ∧ (Encode t text).token_type_ids.length = 512
    ∧ (Encode t text).attention_mask.length = 512
    ∧ (Encode t text).input_ids[0]? = some t.cls_token_id
    ∧ (Encode t text).input_ids[511]? = (t.Encode (t.Tokenize text))[510]? := by
  rw [AddSpecialToken_length] at h
  have hmin := Encode_lengths_min t text
  rw [Nat.min_eq_right (by omega)] at hmin
  refine ⟨?_, ?_, ?_, hmin.1, hmin.2.1, hmin.2.2, ?_, ?_⟩
  · rw [Encode_long t text h]
  · rw [Encode_long t text h]
  · rw [Encode_long t text h]
  · rw [Encode_long t text h]
    simp [BertTokenizer.AddSpecialToken]
  · rw [Encode_long t text h]
    simp only [BertTokenizer.AddSpecialToken, List.getElem?_take, List.cons_append]
    rw [if_pos (by omega), List.getElem?_cons_succ, List.getElem?_append_left (by omega)]

/-- Witness of C2: a text of 600 one-character tokens. -/
theorem Encode_truncates_witness :
    (Encode char_tokenizer (List.replicate 600 'a')).input_ids.length = 512
    ∧ (Encode char_tokenizer (List.replicate 600 'a')).input_ids[0]? = some 101 :=
  have h := Encode_truncates char_tokenizer (List.replicate 600 'a')
    (by rw [AddSpecialToken_length, char_tokenizer_count, List.length_replicate]; omega)
  ⟨h.2.2.2.1, h.2.2.2.2.2.2.1⟩

/-- Counterexample to C3 as stated: a text of 511 sub-word tokens (under 512) is encoded
into sequences of length 512, not 511 + 2. -/
theorem Encode_length_counterexample :
    (char_tokenizer.Encode (char_tokenizer.Tokenize (List.replicate 511 'a'))).length = 511
    ∧ (Encode char_tokenizer (List.replicate 511 'a')).input_ids.length ≠ 511 + 2 := by
  have hn := char_tokenizer_count (List.replicate 511 'a')
  rw [List.length_replicate] at hn
  refine ⟨hn, ?_⟩
  rw [(Encode_lengths_min char_tokenizer (List.replicate 511 'a')).1, hn]
  decide

/-- C3 (amended): when the number `n` of sub-word tokens is at most 510, the three
sequences `Encode` returns have the same length, `n + 2`. -/
theorem Encode_lengths (t : BertTokenizer) (text : Str)
    (h : (t.Encode (t.Tokenize text)).length ≤ 510) :
    (Encode t text).input_ids.length = (t.Encode (t.Tokenize text)).length + 2
    ∧ (Encode t text).token_type_ids.length = (t.Encode (t.Tokenize text)).length + 2
    ∧ (Encode t text).attention_mask.length = (t.Encode (t.Tokenize text)).length + 2 := by
  have hmin := Encode_lengths_min t text
  rw [Nat.min_eq_left (by omega)] at hmin
  exact hmin

/-- Witness of C3 (amended): a text of 510 one-character tokens gives length 512. -/
theorem Encode_lengths_witness :
    (Encode char_tokenizer (List.replicate 510 'a')).input_ids.length = 512
    ∧ (Encode char_tokenizer (List.replicate 510 'a')).token_type_ids.length = 512
    ∧ (Encode char_tokenizer (List.replicate 510 'a')).attention_mask.length = 512 := by
  have h := Encode_lengths char_tokenizer (List.replicate 510 'a')
    (by rw [char_tokenizer_count, List.length_replicate])
  rw [char_tokenizer_count, List.length_replicate] at h
  exact h

/-! ## Local validation -/

theorem is_embedding_shape_iff (shape : List Int) :
    is_embedding_shape shape = true ↔ ∃ d : Int, 0 < d ∧ shape = [-1, -1, d] := by
  constructor
  · intro h
    match shape, h with
    | [a, b, c], h =>
      simp only [is_embedding_shape, List.length_cons, List.length_nil, List.getD_cons_zero,
        List.getD_cons_succ, Bool.and_eq_true, beq_iff_eq, decide_eq_true_eq] at h
      obtain ⟨⟨⟨_, ha⟩, hb⟩, hc⟩ := h
      exact ⟨c, hc, by rw [ha, hb]⟩
    | [], h => simp [is_embedding_shape] at h
    | [_], h => simp [is_embedding_shape] at h
    | [_, _], h => simp [is_embedding_shape] at h
    | _ :: _ :: _ :: _ :: _, h => simp [is_embedding_shape] at h
  · rintro ⟨d, hd, rfl⟩
    simp [is_embedding_shape, hd]

/-- The validation of a graph with the three expected inputs is the output search. -/
theorem is_model_valid_of_inputs (store : ModelStore) (model_path : Str) (num_dims : Nat)
    (session : Session)
    (hfile : store.file (store.get_absolute_model_path model_path) = .graph session)
    (hin : session.input_names = bert_inputs) :
    is_model_valid store model_path num_dims
      = .ok (find_output_tensor num_dims session.outputs) := by
  unfold is_model_valid
  rw [hfile]
  simp only [hin, bert_inputs]
  simp only [List.length_cons, List.length_nil, List.getD_cons_zero, List.getD_cons_succ,
    ne_eq, not_true_eq_false, if_false]
  cases h : (find_output_tensor num_dims session.outputs).1 <;> simp [← h]

theorem find_output_tensor_false (num_dims : Nat) (outputs : List (Str × List Int)) :
    (find_output_tensor num_dims outputs).1 = false ↔
      ∀ o ∈ outputs, is_embedding_shape o.2 = false := by
  induction outputs with
  | nil => simp [find_output_tensor]
  | cons o rest ih =>
    obtain ⟨name, shape⟩ := o
    unfold find_output_tensor
    by_cases h : is_embedding_shape shape = true
    · simp [h]
    · simp only [h, Bool.false_eq_true, if_false, ih, List.mem_cons, forall_eq_or_imp]
      simp [h]

/-- When the search succeeds, the dimension it reports is that of the first output
tensor with an embedding shape, converted to `unsigned int`. -/
theorem find_output_tensor_true (num_dims : Nat) (outputs : List (Str × List Int))
    (h : (find_output_tensor num_dims outputs).1 = true) :
    ∃ before name d after, outputs = before ++ (name, [-1, -1, d]) :: after
      ∧ (∀ o ∈ before, is_embedding_shape o.2 = false) ∧ 0 < d
      ∧ (find_output_tensor num_dims outputs).2 = to_unsigned_int d
      ∧ select_output_tensor_name outputs = name := by
  induction outputs with
  | nil => simp [find_output_tensor] at h
  | cons o rest ih =>
    obtain ⟨name, shape⟩ := o
    unfold find_output_tensor at h ⊢
    unfold select_output_tensor_name
    by_cases hs : is_embedding_shape shape = true
    · obtain ⟨d, hd, rfl⟩ := (is_embedding_shape_iff shape).mp hs
      refine ⟨[], name, d, rest, rfl, by simp, hd, ?_, ?_⟩
      · simp [hs]
      · simp [hs]
    · simp only [hs, Bool.false_eq_true, if_false] at h ⊢
      obtain ⟨before, n, d, after, he, hb, hd, hv, hsel⟩ := ih h
      refine ⟨(name, shape) :: before, n, d, after, by rw [he]; rfl, ?_, hd, hv, hsel⟩
      intro o ho
      rcases List.mem_cons.mp ho with rfl | ho
      · simpa using hs
      · exact hb o ho

/-- C6: for a model file that holds a graph, local validation returns false whenever the
input count is not 3 or the names at positions 0, 1, 2 are not `input_ids`,
`attention_mask`, `token_type_ids` in that order, whatever the outputs are (`num_dims`
is left as it was). -/
theorem local_validation_rejects_inputs (store : ModelStore) (model_path : Str)
    (num_dims : Nat) (session : Session)
    (hfile : store.file (store.get_absolute_model_path model_path) = .graph session)
    (hin : session.input_names.length ≠ 3
      ∨ session.input_names[0]? ≠ some "input_ids".toList
      ∨ session.input_names[1]? ≠ some "attention_mask".toList
      ∨ session.input_names[2]? ≠ some "token_type_ids".toList) :
    is_model_valid store model_path num_dims = .ok (false, num_dims) := by
  unfold is_model_valid
  rw [hfile]
  obtain ⟨names, outputs⟩ := session
  simp only at hin ⊢
  by_cases hlen : names.length = 3
  · match names, hlen, hin with
    | [a, b, c], _, hin =>
      simp only [List.length_cons, List.length_nil, ne_eq, not_true_eq_false, if_false,
        List.getD_cons_zero, List.getD_cons_succ]
      simp only [List.length_cons, List.length_nil, ne_eq, not_true_eq_false, false_or,
        List.getElem?_cons_zero, List.getElem?_cons_succ, Option.some.injEq] at hin
      by_cases ha : a = "input_ids".toList
      · by_cases hb : b = "attention_mask".toList
        · by_cases hc : c = "token_type_ids".toList
          · exact absurd hin (by simp [ha, hb, hc])
          · rw [if_neg (not_not.mpr ha), if_neg (not_not.mpr hb), if_pos hc]
        · rw [if_neg (not_not.mpr ha), if_pos hb]
      · rw [if_pos ha]
  · rw [if_pos hlen]

/-- Witness of C6: a graph with two inputs and a well-shaped output is rejected. -/
theorem local_validation_rejects_inputs_witness :
    is_model_valid (store_of two_input_session) "model.onnx".toList 7 = .ok (false, 7) :=
  local_validation_rejects_inputs (store_of two_input_session) "model.onnx".toList 7
    two_input_session rfl (Or.inl (by decide))

/-- Counterexample to C7 as stated: the first output with an embedding shape has the third
dimension `4294967680`, validation succeeds and reports `num_dims = 384`. -/
theorem local_validation_dims_counterexample :
    is_model_valid (store_of wide_session) "model.onnx".toList 0 = .ok (true, 384)
    ∧ wide_session.outputs = [("last_hidden_state".toList, [-1, -1, 4294967680])]
    ∧ (384 : Int) ≠ 4294967680 :=
  ⟨rfl, rfl, by decide⟩

/-- C7 (amended): for a model file whose graph has the three inputs correctly named and
ordered, local validation returns, and returns true exactly when some output tensor has a
rank-3 shape `(-1, -1, d)` with `d` positive; on success `num_dims` is the third dimension
of the first such output converted to `unsigned int`, that is `d mod 2^32`, which is `d`
itself when `d < 2^32`; the local constructor selects the name of that same output. -/
theorem local_validation_output (store : ModelStore) (model_path : Str) (num_dims : Nat)
    (session : Session)
    (hfile : store.file (store.get_absolute_model_path model_path) = .graph session)
    (hin : session.input_names = bert_inputs) :
    ∃ valid dims, is_model_valid store model_path num_dims = .ok (valid, dims)
      ∧ (valid = true ↔ ∃ o ∈ session.outputs, ∃ d : Int, 0 < d ∧ o.2 = [-1, -1, d])
      ∧ (valid = true → ∃ before name d after,
          session.outputs = before ++ (name, [-1, -1, d]) :: after
          ∧ (∀ o ∈ before, ¬ ∃ d' : Int, 0 < d' ∧ o.2 = [-1, -1, d'])
          ∧ 0 < d ∧ (dims : Int) = d % 2 ^ 32 ∧ (d < 2 ^ 32 → (dims : Int) = d)
          ∧ select_output_tensor_name session.outputs = name) := by
  refine ⟨(find_output_tensor num_dims session.outputs).1,
    (find_output_tensor num_dims session.outputs).2,
    is_model_valid_of_inputs store model_path num_dims session hfile hin, ?_, ?_⟩
  · constructor
    · intro h
      obtain ⟨before, name, d, after, he, _, hd, _, _⟩ :=
        find_output_tensor_true num_dims session.outputs h
      exact ⟨(name, [-1, -1, d]), by rw [he]; simp, d, hd, rfl⟩
    · rintro ⟨o, ho, d, hd, hshape⟩
      by_contra hne
      have hf := (find_output_tensor_false num_dims session.outputs).mp
        (by simpa using hne) o ho
      rw [(is_embedding_shape_iff o.2).mpr ⟨d, hd, hshape⟩] at hf
      exact absurd hf (by decide)
  · intro h
    obtain ⟨before, name, d, after, he, hb, hd, hv, hsel⟩ :=
      find_output_tensor_true num_dims session.outputs h
    refine ⟨before, name, d, after, he, ?_, hd, ?_, ?_, hsel⟩
    · intro o ho hex
      have := hb o ho
      rw [(is_embedding_shape_iff o.2).mpr hex] at this
      exact absurd this (by decide)
    · rw [hv]
      unfold to_unsigned_int
      exact Int.toNat_of_nonneg (Int.emod_nonneg _ (by norm_num))
    · intro hlt
      rw [hv]
      unfold to_unsigned_int
      rw [Int.toNat_of_nonneg (Int.emod_nonneg _ (by norm_num))]
      exact Int.emod_eq_of_lt (le_of_lt hd) hlt

/-- Witness of C7 (amended): a graph whose second output has shape `(-1, -1, 384)`. -/
theorem local_validation_output_witness :
    ∃ valid dims, is_model_valid (store_of minilm_session) "model.onnx".toList 0
        = .ok (valid, dims)
      ∧ (valid = true ↔ ∃ o ∈ minilm_session.outputs, ∃ d : Int, 0 < d ∧ o.2 = [-1, -1, d])
      ∧ (valid = true → ∃ before name d after,
          minilm_session.outputs = before ++ (name, [-1, -1, d]) :: after
          ∧ (∀ o ∈ before, ¬ ∃ d' : Int, 0 < d' ∧ o.2 = [-1, -1, d'])
          ∧ 0 < d ∧ (dims : Int) = d % 2 ^ 32 ∧ (d < 2 ^ 32 → (dims : Int) = d)
          ∧ select_output_tensor_name minilm_session.outputs = name) :=
  local_validation_output (store_of minilm_session) "model.onnx".toList 0 minilm_session
    rfl rfl

/-! ## Pooling -/

theorem column_sum_replicate {F : Type} (A : Arith F) (i : Nat) (r : List F) (x : F)
    (hx : r[i]? = some x) (T : Nat) (s : F) :
    column_sum A i (List.replicate T r) s = some ((fun sum => A.add sum x)^[T] s) := by
  induction T generalizing s with
  | zero => rfl
  | succ T ih =>
    rw [List.replicate_succ]
    unfold column_sum
    rw [hx]
    simp only [Function.iterate_succ, Function.comp_apply]
    exact ih _

theorem pool_columns_replicate {F : Type} (A : Arith F) (r : List F) (T : Nat)
    (cols : List Nat) (xs : List F) (h : cols.map (fun i => r[i]?) = xs.map some) :
    pool_columns A (List.replicate T r) cols
      = some (xs.map fun x => A.div (repeated_sum A T x) (A.of_size T)) := by
  induction cols generalizing xs with
  | nil =>
    cases xs with
    | nil => rfl
    | cons x xs => simp at h
  | cons i cols ih =>
    cases xs with
    | nil => simp at h
    | cons x xs =>
      simp only [List.map_cons, List.cons.injEq] at h
      unfold pool_columns
      rw [column_sum_replicate A i r x h.1 T A.zero, ih xs h.2]
      simp [repeated_sum]

theorem range_getElem? {F : Type} (r : List F) :
    (List.range r.length).map (fun i => r[i]?) = r.map some := by
  apply List.ext_getElem?
  intro n
  simp only [List.getElem?_map, List.getElem?_range]
  by_cases h : n < r.length
  · simp [List.getElem?_range h, List.getElem?_eq_getElem h]
  · have h' : r.length ≤ n := Nat.le_of_not_lt h
    simp [List.getElem?_eq_none h', h']

/-- What `mean_pooling` computes on `T ≥ 1` identical rows, in any arithmetic. -/
theorem mean_pooling_replicate {F : Type} (A : Arith F) (T : Nat) (hT : 1 ≤ T) (r : List F) :
    mean_pooling A (List.replicate T r)
      = some (r.map fun x => A.div (repeated_sum A T x) (A.of_size T)) := by
  obtain ⟨k, rfl⟩ : ∃ k, T = k + 1 := ⟨T - 1, by omega⟩
  have := pool_columns_replicate A r (k + 1) (List.range r.length) r (range_getElem? r)
  rw [← this]
  rfl

/-- The `sum` of column `i` as a fold over the rows. -/
theorem column_sum_eq_foldl {F : Type} (A : Arith F) (i : Nat) (inputs : List (List F))
    (h : ∀ row ∈ inputs, i < row.length) (s : F) :
    column_sum A i inputs s
      = some (inputs.foldl (fun sum row => A.add sum (row.getD i A.zero)) s) := by
  induction inputs generalizing s with
  | nil => rfl
  | cons row rest ih =>
    have hi : i < row.length := h row (List.mem_cons_self _ _)
    unfold column_sum
    rw [List.getElem?_eq_getElem hi]
    simp only [List.foldl_cons]
    rw [ih (fun r hr => h r (List.mem_cons_of_mem _ hr))]
    simp [List.getD_eq_getElem?_getD, List.getElem?_eq_getElem hi]

theorem pool_columns_eq_map {F : Type} (A : Arith F) (inputs : List (List F))
    (cols : List Nat) (h : ∀ i ∈ cols, ∀ row ∈ inputs, i < row.length) :
    pool_columns A inputs cols
      = some (cols.map fun i =>
          A.div (inputs.foldl (fun sum row => A.add sum (row.getD i A.zero)) A.zero)
            (A.of_size inputs.length)) := by
  induction cols with
  | nil => rfl
  | cons i cols ih =>
    unfold pool_columns
    rw [column_sum_eq_foldl A i inputs (h i (List.mem_cons_self _ _)),
      ih (fun j hj => h j (List.mem_cons_of_mem _ hj))]
    rfl

/-- On a non-empty matrix whose rows all have the length `L`, `mean_pooling` returns the
vector of the `L` column quotients. -/
theorem mean_pooling_eq_map {F : Type} (A : Arith F) (inputs : List (List F)) (L : Nat)
    (hne : inputs ≠ []) (hrows : ∀ row ∈ inputs, row.length = L) :
    mean_pooling A inputs
      = some ((List.range L).map fun i =>
          A.div (inputs.foldl (fun sum row => A.add sum (row.getD i A.zero)) A.zero)
            (A.of_size inputs.length)) := by
  cases inputs with
  | nil => exact absurd rfl hne
  | cons row0 rest =>
    unfold mean_pooling
    simp only
    rw [hrows row0 (List.mem_cons_self _ _)]
    apply pool_columns_eq_map
    intro i hi row hrow
    rw [hrows row hrow]
    exact List.mem_range.mp hi

/-! ## Exact floating-point operations -/

theorem floor_log2_loop_spec (fuel n : Nat) (hn : 0 < n) (hf : n < 2 ^ fuel) :
    2 ^ Format.floor_log2_loop fuel n ≤ n ∧ n < 2 ^ (Format.floor_log2_loop fuel n + 1) := by
  induction fuel generalizing n with
  | zero => simp at hf; omega
  | succ fuel ih =>
    unfold Format.floor_log2_loop
    by_cases h2 : n < 2
    · rw [if_pos h2]
      simp
      omega
    · rw [if_neg h2]
      have hdiv : 0 < n / 2 := by omega
      have hlt : n / 2 < 2 ^ fuel := by
        rw [pow_succ] at hf
        omega
      obtain ⟨h1, h3⟩ := ih (n / 2) hdiv hlt
      rw [pow_succ, pow_succ]
      rw [pow_succ] at h3
      constructor <;> omega

theorem floor_log2_spec (n : Nat) (hn : 0 < n) :
    2 ^ Format.floor_log2 n ≤ n ∧ n < 2 ^ (Format.floor_log2 n + 1) :=
  floor_log2_loop_spec n n hn (Nat.lt_two_pow n)

theorem two_zpow_toNat (d : Int) (hd : 0 ≤ d) : ((2 : ℚ) ^ d.toNat) = (2 : ℚ) ^ d := by
  rw [← zpow_natCast, Int.toNat_of_nonneg hd]

theorem two_zpow_neg_toNat (d : Int) (hd : d ≤ 0) :
    ((2 : ℚ) ^ (-d).toNat) = ((2 : ℚ) ^ d)⁻¹ := by
  rw [← zpow_natCast, Int.toNat_of_nonneg (by omega), zpow_neg]

theorem at_least_pow2_iff (num den : Nat) (d : Int) (hden : 0 < den) :
    Format.at_least_pow2 num den d = true ↔ (2 : ℚ) ^ d ≤ (num : ℚ) / den := by
  have hq : (0 : ℚ) < den := by exact_mod_cast hden
  unfold Format.at_least_pow2
  by_cases hd : 0 ≤ d
  · rw [if_pos hd, decide_eq_true_iff, le_div_iff₀ hq, ← two_zpow_toNat d hd]
    constructor
    · intro h
      have : ((den * 2 ^ d.toNat : ℕ) : ℚ) ≤ (num : ℚ) := by exact_mod_cast h
      push_cast at this
      linarith
    · intro h
      have : ((den * 2 ^ d.toNat : ℕ) : ℚ) ≤ (num : ℚ) := by
        push_cast
        linarith
      exact_mod_cast this
  · have hd' : d ≤ 0 := by omega
    have hpos : (0 : ℚ) < (2 : ℚ) ^ d := zpow_pos (by norm_num) d
    rw [if_neg hd, decide_eq_true_iff, le_div_iff₀ hq]
    have key : ((2 : ℚ) ^ (-d).toNat) = ((2 : ℚ) ^ d)⁻¹ := two_zpow_neg_toNat d hd'
    constructor
    · intro h
      have h1 : ((den : ℕ) : ℚ) ≤ ((num * 2 ^ (-d).toNat : ℕ) : ℚ) := by exact_mod_cast h
      push_cast at h1
      rw [key] at h1
      have := mul_le_mul_of_nonneg_right h1 hpos.le
      rw [mul_assoc, inv_mul_cancel₀ hpos.ne', mul_one] at this
      linarith
    · intro h
      have h1 : ((den : ℕ) : ℚ) ≤ ((num * 2 ^ (-d).toNat : ℕ) : ℚ) := by
        push_cast
        rw [key, ← div_eq_mul_inv, le_div_iff₀ hpos]
        linarith
      exact_mod_cast h1

theorem floor_exponent_spec (num den : Nat) (hnum : 0 < num) (hden : 0 < den) (e0 : Int)
    (he0 : e0 = if Format.at_least_pow2 num den
        ((Format.floor_log2 num : Int) - (Format.floor_log2 den : Int)) = true
      then (Format.floor_log2 num : Int) - (Format.floor_log2 den : Int)
      else (Format.floor_log2 num : Int) - (Format.floor_log2 den : Int) - 1) :
    (2 : ℚ) ^ e0 ≤ (num : ℚ) / den ∧ (num : ℚ) / den < (2 : ℚ) ^ (e0 + 1) := by
  have hq : (0 : ℚ) < den := by exact_mod_cast hden
  obtain ⟨hp1, hp2⟩ := floor_log2_spec num hnum
  obtain ⟨hq1, hq2⟩ := floor_log2_spec den hden
  have hp1' : (2 : ℚ) ^ (Format.floor_log2 num : Int) ≤ num := by
    rw [zpow_natCast]; exact_mod_cast hp1
  have hp2' : (num : ℚ) < (2 : ℚ) ^ ((Format.floor_log2 num : Int) + 1) := by
    have : (num : ℚ) < (2 : ℚ) ^ (Format.floor_log2 num + 1) := by exact_mod_cast hp2
    rw [← zpow_natCast] at this
    push_cast at this
    exact this
  have hq1' : (2 : ℚ) ^ (Format.floor_log2 den : Int) ≤ den := by
    rw [zpow_natCast]; exact_mod_cast hq1
  have hq2' : (den : ℚ) < (2 : ℚ) ^ ((Format.floor_log2 den : Int) + 1) := by
    have : (den : ℚ) < (2 : ℚ) ^ (Format.floor_log2 den + 1) := by exact_mod_cast hq2
    rw [← zpow_natCast] at this
    push_cast at this
    exact this
  generalize (Format.floor_log2 num : Int) = lp at *
  generalize (Format.floor_log2 den : Int) = lq at *
  have h2 : (2 : ℚ) ≠ 0 := by norm_num
  have hpow : ∀ k : Int, (0 : ℚ) < (2 : ℚ) ^ k := fun k => zpow_pos (by norm_num) k
  have hupper : (num : ℚ) / den < (2 : ℚ) ^ (lp - lq + 1) := by
    rw [div_lt_iff₀ hq]
    have e1 : (2 : ℚ) ^ (lp - lq + 1) * (2 : ℚ) ^ lq = (2 : ℚ) ^ (lp + 1) := by
      rw [← zpow_add₀ h2]; congr 1; ring
    have : (2 : ℚ) ^ (lp - lq + 1) * (2 : ℚ) ^ lq ≤ (2 : ℚ) ^ (lp - lq + 1) * den :=
      mul_le_mul_of_nonneg_left hq1' (hpow _).le
    linarith
  have hlower : (2 : ℚ) ^ (lp - lq - 1) < (num : ℚ) / den := by
    rw [lt_div_iff₀ hq]
    have e1 : (2 : ℚ) ^ (lp - lq - 1) * (2 : ℚ) ^ (lq + 1) = (2 : ℚ) ^ lp := by
      rw [← zpow_add₀ h2]; congr 1; ring
    have : (2 : ℚ) ^ (lp - lq - 1) * den < (2 : ℚ) ^ (lp - lq - 1) * (2 : ℚ) ^ (lq + 1) :=
      mul_lt_mul_of_pos_left hq2' (hpow _)
    linarith
  by_cases hat : Format.at_least_pow2 num den (lp - lq) = true
  · rw [if_pos hat] at he0
    subst he0
    exact ⟨(at_least_pow2_iff num den _ hden).mp hat, hupper⟩
  · rw [if_neg hat] at he0
    subst he0
    refine ⟨hlower.le, ?_⟩
    have : ¬ (2 : ℚ) ^ (lp - lq) ≤ (num : ℚ) / den :=
      fun h => hat ((at_least_pow2_iff num den _ hden).mpr h)
    have e1 : lp - lq - 1 + 1 = lp - lq := by ring
    rw [e1]
    exact not_le.mp this

theorem represents_fin_iff (neg : Bool) (m : Nat) (e : Int) :
    binary32.represents (.fin neg m e) = true ↔
      m < 2 ^ 24 ∧ -149 ≤ e ∧ e ≤ 104 ∧ (2 ^ 23 ≤ m ∨ e = -149) := by
  simp only [Format.represents, binary32, Bool.and_eq_true, Bool.or_eq_true, decide_eq_true_eq]
  constructor
  · rintro ⟨⟨⟨h1, h2⟩, h3⟩, h4⟩
    exact ⟨h1, h2, h3, h4⟩
  · rintro ⟨h1, h2, h3, h4⟩
    exact ⟨⟨⟨h1, h2⟩, h3⟩, h4⟩

/-- Rounding is exact on the value of a datum of the format: it returns that datum. -/
theorem round_exact (neg : Bool) (num den m : Nat) (e : Int) (hden : 0 < den) (hm : 0 < m)
    (hrep : binary32.represents (.fin neg m e) = true)
    (hv : (num : ℚ) / den = (m : ℚ) * (2 : ℚ) ^ e) :
    binary32.round neg num den = .fin neg m e := by
  obtain ⟨hm24, hemin, hemax, hnorm⟩ := (represents_fin_iff neg m e).mp hrep
  have hq : (0 : ℚ) < den := by exact_mod_cast hden
  have hmq : (0 : ℚ) < m := by exact_mod_cast hm
  have hpow : ∀ k : Int, (0 : ℚ) < (2 : ℚ) ^ k := fun k => zpow_pos (by norm_num) k
  have h2 : (2 : ℚ) ≠ 0 := by norm_num
  have hvpos : (0 : ℚ) < (num : ℚ) / den := by rw [hv]; exact mul_pos hmq (hpow e)
  have hnum : 0 < num := by
    rcases Nat.eq_zero_or_pos num with h | h
    · rw [h] at hvpos; simp at hvpos
    · exact h
  obtain ⟨hlo, hhi⟩ := floor_exponent_spec num den hnum hden _ rfl
  generalize hE : (if Format.at_least_pow2 num den
        ((Format.floor_log2 num : Int) - (Format.floor_log2 den : Int)) = true
      then (Format.floor_log2 num : Int) - (Format.floor_log2 den : Int)
      else (Format.floor_log2 num : Int) - (Format.floor_log2 den : Int) - 1) = e0 at hlo hhi
  rw [hv] at hlo hhi
  -- the exponent of the unit in the last place is `e`
  have hm24q : (m : ℚ) < (2 : ℚ) ^ (24 : Int) := by
    have : (m : ℚ) < ((2 ^ 24 : ℕ) : ℚ) := by exact_mod_cast hm24
    norm_num at this ⊢
    exact this
  have hup : e0 < e + 24 := by
    have : (2 : ℚ) ^ e0 < (2 : ℚ) ^ (e + 24) := by
      calc (2 : ℚ) ^ e0 ≤ (m : ℚ) * (2 : ℚ) ^ e := hlo
        _ < (2 : ℚ) ^ (24 : Int) * (2 : ℚ) ^ e := mul_lt_mul_of_pos_right hm24q (hpow e)
        _ = (2 : ℚ) ^ (e + 24) := by rw [← zpow_add₀ h2]; congr 1; ring
    exact (zpow_lt_zpow_iff_right₀ (by norm_num)).mp this
  have hqe : max (e0 - ((24 : Int) - 1)) (-149) = e := by
    rcases hnorm with hnorm | hsub
    · have hm23q : (2 : ℚ) ^ (23 : Int) ≤ (m : ℚ) := by
        have : ((2 ^ 23 : ℕ) : ℚ) ≤ (m : ℚ) := by exact_mod_cast hnorm
        norm_num at this ⊢
        exact this
      have : (2 : ℚ) ^ (e + 23) < (2 : ℚ) ^ (e0 + 1) := by
        calc (2 : ℚ) ^ (e + 23) = (2 : ℚ) ^ (23 : Int) * (2 : ℚ) ^ e := by
              rw [← zpow_add₀ h2]; congr 1; ring
          _ ≤ (m : ℚ) * (2 : ℚ) ^ e := mul_le_mul_of_nonneg_right hm23q (hpow e).le
          _ < (2 : ℚ) ^ (e0 + 1) := hhi
      have hlow : e + 23 < e0 + 1 := (zpow_lt_zpow_iff_right₀ (by norm_num)).mp this
      have : e0 - (24 - 1) = e := by omega
      rw [this]
      exact max_eq_left hemin
    · by_cases hm23 : 2 ^ 23 ≤ m
      · have hm23q : (2 : ℚ) ^ (23 : Int) ≤ (m : ℚ) := by
          have : ((2 ^ 23 : ℕ) : ℚ) ≤ (m : ℚ) := by exact_mod_cast hm23
          norm_num at this ⊢
          exact this
        have : (2 : ℚ) ^ (e + 23) < (2 : ℚ) ^ (e0 + 1) := by
          calc (2 : ℚ) ^ (e + 23) = (2 : ℚ) ^ (23 : Int) * (2 : ℚ) ^ e := by
                rw [← zpow_add₀ h2]; congr 1; ring
            _ ≤ (m : ℚ) * (2 : ℚ) ^ e := mul_le_mul_of_nonneg_right hm23q (hpow e).le
            _ < (2 : ℚ) ^ (e0 + 1) := hhi
        have hlow : e + 23 < e0 + 1 := (zpow_lt_zpow_iff_right₀ (by norm_num)).mp this
        have : e0 - (24 - 1) = e := by omega
        rw [this]
        exact max_eq_left hemin
      · have hm23q : (m : ℚ) < (2 : ℚ) ^ (23 : Int) := by
          have : (m : ℚ) < ((2 ^ 23 : ℕ) : ℚ) := by exact_mod_cast (not_le.mp hm23)
          norm_num at this ⊢
          exact this
        have : (2 : ℚ) ^ e0 < (2 : ℚ) ^ (e + 23) := by
          calc (2 : ℚ) ^ e0 ≤ (m : ℚ) * (2 : ℚ) ^ e := hlo
            _ < (2 : ℚ) ^ (23 : Int) * (2 : ℚ) ^ e := mul_lt_mul_of_pos_right hm23q (hpow e)
            _ = (2 : ℚ) ^ (e + 23) := by rw [← zpow_add₀ h2]; congr 1; ring
        have hlt : e0 < e + 23 := (zpow_lt_zpow_iff_right₀ (by norm_num)).mp this
        rw [hsub] at hlt ⊢
        exact max_eq_right (by omega)
  -- the quotient is exactly `m`
  have hab : (if 0 ≤ e then num else num * 2 ^ (-e).toNat)
      = m * (if 0 ≤ e then den * 2 ^ e.toNat else den) := by
    have hnumeq : (num : ℚ) = (m : ℚ) * (2 : ℚ) ^ e * den := by
      rw [← hv]; field_simp
    by_cases he : 0 ≤ e
    · rw [if_pos he, if_pos he]
      have : (num : ℚ) = ((m * (den * 2 ^ e.toNat) : ℕ) : ℚ) := by
        push_cast
        rw [two_zpow_toNat e he, hnumeq]; ring
      exact_mod_cast this
    · rw [if_neg he, if_neg he]
      have : ((num * 2 ^ (-e).toNat : ℕ) : ℚ) = ((m * den : ℕ) : ℚ) := by
        push_cast
        rw [two_zpow_neg_toNat e (by omega), hnumeq]
        field_simp
        ring
      exact_mod_cast this
  have hbpos : 0 < (if 0 ≤ e then den * 2 ^ e.toNat else den) := by
    by_cases he : 0 ≤ e
    · rw [if_pos he]; positivity
    · rw [if_neg he]; exact hden
  unfold Format.round
  rw [if_neg (by omega)]
  simp only [binary32, Nat.cast_ofNat]
  rw [hE, hqe, hab]
  generalize (if 0 ≤ e then den * 2 ^ e.toNat else den) = b at hbpos
  rw [Nat.mul_div_cancel _ hbpos, Nat.mul_mod_left]
  simp only [Nat.mul_zero, hbpos, if_true]
  rw [if_neg (by omega), if_neg (by omega)]

theorem round_scaled_exact (neg : Bool) (n m : Nat) (q e : Int) (hm : 0 < m)
    (hrep : binary32.represents (.fin neg m e) = true)
    (hv : (n : ℚ) * (2 : ℚ) ^ q = (m : ℚ) * (2 : ℚ) ^ e) :
    binary32.round_scaled neg n q = .fin neg m e := by
  unfold Format.round_scaled
  by_cases hq : 0 ≤ q
  · rw [if_pos hq]
    apply round_exact neg _ 1 m e (by norm_num) hm hrep
    push_cast
    rw [two_zpow_toNat q hq, div_one, hv]
  · rw [if_neg hq]
    apply round_exact neg _ _ m e (by positivity) hm hrep
    push_cast
    rw [two_zpow_neg_toNat q (by omega), div_eq_mul_inv, inv_inv, hv]

theorem proper_fin_iff (neg : Bool) (m : Nat) (e : Int) :
    binary32.proper (.fin neg m e) = true ↔
      binary32.represents (.fin neg m e) = true ∧ (0 < m ∨ neg = false) := by
  simp [Format.proper]

theorem proper_is_fin (y : Flt) (h : binary32.proper y = true) :
    ∃ neg m e, y = .fin neg m e := by
  cases y with
  | fin neg m e => exact ⟨neg, m, e, rfl⟩
  | inf neg => simp [Format.proper] at h
  | nan => simp [Format.proper] at h

theorem value_fin (neg : Bool) (m : Nat) (e : Int) :
    (Flt.fin neg m e).value = (if neg then -(m : ℚ) else (m : ℚ)) * (2 : ℚ) ^ e := rfl

theorem signed_cast (neg : Bool) (m : Nat) :
    ((Format.signed neg m : Int) : ℚ) = if neg then -(m : ℚ) else (m : ℚ) := by
  unfold Format.signed
  cases neg <;> simp

/-- A proper datum of value 0 is positive zero. -/
theorem proper_zero (neg : Bool) (m : Nat) (e : Int)
    (h : binary32.proper (.fin neg m e) = true) (hv : (Flt.fin neg m e).value = 0) :
    Flt.fin neg m e = .fin false 0 (-149) := by
  obtain ⟨hrep, hsign⟩ := (proper_fin_iff neg m e).mp h
  obtain ⟨_, _, _, hnorm⟩ := (represents_fin_iff neg m e).mp hrep
  have hpow : (2 : ℚ) ^ e ≠ 0 := (zpow_pos (by norm_num) e).ne'
  have hm : m = 0 := by
    rw [value_fin] at hv
    rcases mul_eq_zero.mp hv with h0 | h0
    · cases neg <;> simpa using h0
    · exact absurd h0 hpow
  subst hm
  have hneg : neg = false := by
    rcases hsign with h0 | h0
    · omega
    · exact h0
  have he : e = -149 := by
    rcases hnorm with h0 | h0
    · norm_num at h0
    · exact h0
  rw [hneg, he]

/-- The magnitude and the sign of a proper datum of non-zero value. -/
theorem proper_nonzero (neg : Bool) (m : Nat) (e : Int) (v : ℚ)
    (hv : (Flt.fin neg m e).value = v) (hne : v ≠ 0) :
    0 < m ∧ neg = decide (v < 0) ∧ |v| = (m : ℚ) * (2 : ℚ) ^ e := by
  have hpow : (0 : ℚ) < (2 : ℚ) ^ e := zpow_pos (by norm_num) e
  have hm : 0 < m := by
    rcases Nat.eq_zero_or_pos m with h0 | h0
    · subst h0
      rw [value_fin] at hv
      exfalso; apply hne; rw [← hv]; cases neg <;> simp
    · exact h0
  have hmq : (0 : ℚ) < m := by exact_mod_cast hm
  rw [value_fin] at hv
  refine ⟨hm, ?_, ?_⟩
  · cases neg
    · simp only [Bool.false_eq_true, if_false] at hv
      have : 0 < v := by rw [← hv]; exact mul_pos hmq hpow
      simp [not_lt.mpr this.le]
    · simp only [if_true] at hv
      have : v < 0 := by rw [← hv]; nlinarith
      simp [this]
  · cases neg
    · simp only [Bool.false_eq_true, if_false] at hv
      rw [← hv, abs_of_pos (mul_pos hmq hpow)]
    · simp only [if_true] at hv
      have : v < 0 := by rw [← hv]; nlinarith
      rw [abs_of_neg this, ← hv]; ring

/-- Addition is exact when the sum of the values is the value of a proper datum. -/
theorem add_exact (a b y : Flt) (ha : binary32.proper a = true) (hb : binary32.proper b = true)
    (hy : binary32.proper y = true) (hv : y.value = a.value + b.value) :
    binary32.add a b = y := by
  obtain ⟨s1, m1, e1, rfl⟩ := proper_is_fin a ha
  obtain ⟨s2, m2, e2, rfl⟩ := proper_is_fin b hb
  obtain ⟨s, m, e, rfl⟩ := proper_is_fin y hy
  have h2 : (2 : ℚ) ≠ 0 := by norm_num
  have hpow : ∀ k : Int, (0 : ℚ) < (2 : ℚ) ^ k := fun k => zpow_pos (by norm_num) k
  have hsum : ((Format.signed s1 (m1 * 2 ^ (e1 - min e1 e2).toNat)
      + Format.signed s2 (m2 * 2 ^ (e2 - min e1 e2).toNat) : Int) : ℚ) * (2 : ℚ) ^ (min e1 e2)
      = (Flt.fin s1 m1 e1).value + (Flt.fin s2 m2 e2).value := by
    have k1 : ((2 : ℚ) ^ (e1 - min e1 e2).toNat) * (2 : ℚ) ^ (min e1 e2) = (2 : ℚ) ^ e1 := by
      rw [two_zpow_toNat _ (by omega), ← zpow_add₀ h2]; congr 1; ring
    have k2 : ((2 : ℚ) ^ (e2 - min e1 e2).toNat) * (2 : ℚ) ^ (min e1 e2) = (2 : ℚ) ^ e2 := by
      rw [two_zpow_toNat _ (by omega), ← zpow_add₀ h2]; congr 1; ring
    rw [value_fin, value_fin]
    push_cast
    rw [signed_cast, signed_cast]
    push_cast
    cases s1 <;> cases s2 <;> simp only [Bool.false_eq_true, if_false, if_true] <;>
      first
        | linear_combination (m1 : ℚ) * k1 + (m2 : ℚ) * k2
        | linear_combination (m1 : ℚ) * k1 - (m2 : ℚ) * k2
        | linear_combination -(m1 : ℚ) * k1 + (m2 : ℚ) * k2
        | linear_combination -(m1 : ℚ) * k1 - (m2 : ℚ) * k2
  unfold Format.add
  simp only
  generalize hS : (Format.signed s1 (m1 * 2 ^ (e1 - min e1 e2).toNat)
      + Format.signed s2 (m2 * 2 ^ (e2 - min e1 e2).toNat) : Int) = S at hsum
  rw [← hv] at hsum
  by_cases hS0 : S = 0
  · rw [if_pos hS0]
    rw [hS0] at hsum
    simp only [Int.cast_zero, zero_mul] at hsum
    rw [proper_zero s m e hy hsum.symm]
    have hss : (s1 && s2) = false := by
      by_contra hne
      have hboth : s1 = true ∧ s2 = true := by
        cases s1 <;> cases s2 <;> simp at hne ⊢
      obtain ⟨_, hs1⟩ := (proper_fin_iff s1 m1 e1).mp ha
      obtain ⟨_, hs2⟩ := (proper_fin_iff s2 m2 e2).mp hb
      have hm1 : 0 < m1 := by
        rcases hs1 with h | h
        · exact h
        · rw [hboth.1] at h; exact absurd h (by decide)
      have hm2 : 0 < m2 := by
        rcases hs2 with h | h
        · exact h
        · rw [hboth.2] at h; exact absurd h (by decide)
      rw [hboth.1, hboth.2] at hS
      simp only [Format.signed, if_true] at hS
      have p1 : 0 < m1 * 2 ^ (e1 - min e1 e2).toNat := by positivity
      have p2 : 0 < m2 * 2 ^ (e2 - min e1 e2).toNat := by positivity
      omega
    rw [hss]
    rfl
  · rw [if_neg hS0]
    have hSq : (S : ℚ) ≠ 0 := by exact_mod_cast hS0
    have hvne : (S : ℚ) * (2 : ℚ) ^ (min e1 e2) ≠ 0 := mul_ne_zero hSq (hpow _).ne'
    obtain ⟨hm, hsign, habs⟩ := proper_nonzero s m e _ hsum.symm hvne
    obtain ⟨hrep, _⟩ := (proper_fin_iff s m e).mp hy
    have hneg : decide (S < 0) = s := by
      rw [hsign]
      congr 1
      rw [eq_iff_iff]
      constructor
      · intro h
        have : (S : ℚ) < 0 := by exact_mod_cast h
        exact mul_neg_of_neg_of_pos this (hpow _)
      · intro h
        have : (S : ℚ) < 0 := by
          by_contra hc
          have := mul_nonneg (not_lt.mp hc) (hpow (min e1 e2)).le
          linarith
        exact_mod_cast this
    rw [hneg]
    apply round_scaled_exact s _ m _ e hm hrep
    rw [← habs, abs_mul, abs_of_pos (hpow _)]
    congr 1
    rw [Nat.cast_natAbs, Int.cast_abs]

theorem proper_pos_zero : binary32.proper (.fin false 0 (-149)) = true := by decide

theorem exact_float_zero : exact_float 0 :=
  ⟨.fin false 0 (-149), proper_pos_zero, by simp [Flt.value]⟩

/-- The conversion of a size to `float` is exact when the size is the value of a proper
datum. -/
theorem of_nat_exact (T : Nat) (y : Flt) (hy : binary32.proper y = true)
    (hv : y.value = (T : ℚ)) : binary32.of_nat T = y := by
  obtain ⟨s, m, e, rfl⟩ := proper_is_fin y hy
  unfold Format.of_nat
  rcases Nat.eq_zero_or_pos T with h0 | hpos
  · subst h0
    rw [proper_zero s m e hy (by simpa using hv)]
    rfl
  · have hne : (T : ℚ) ≠ 0 := by exact_mod_cast hpos.ne'
    obtain ⟨hm, hsign, habs⟩ := proper_nonzero s m e _ hv hne
    obtain ⟨hrep, _⟩ := (proper_fin_iff s m e).mp hy
    have hs : s = false := by
      rw [hsign]
      have : ¬ (T : ℚ) < 0 := not_lt.mpr (by positivity)
      simp [this]
    subst hs
    apply round_exact false T 1 m e (by norm_num) hm hrep
    rw [← habs, abs_of_pos (by positivity)]
    simp

/-- Division by a positive datum is exact when the quotient of the values is the value of a
proper datum. -/
theorem div_exact_pos (a b y : Flt) (ha : binary32.proper a = true)
    (hb : binary32.proper b = true) (hy : binary32.proper y = true) (hbpos : 0 < b.value)
    (hv : y.value = a.value / b.value) : binary32.div a b = y := by
  obtain ⟨s1, m1, e1, rfl⟩ := proper_is_fin a ha
  obtain ⟨s2, m2, e2, rfl⟩ := proper_is_fin b hb
  obtain ⟨s, m, e, rfl⟩ := proper_is_fin y hy
  have h2 : (2 : ℚ) ≠ 0 := by norm_num
  have hpow : ∀ k : Int, (0 : ℚ) < (2 : ℚ) ^ k := fun k => zpow_pos (by norm_num) k
  obtain ⟨hm2, hs2, habs2⟩ := proper_nonzero s2 m2 e2 _ rfl hbpos.ne'
  have hs2' : s2 = false := by
    rw [hs2]
    simp [not_lt.mpr hbpos.le]
  subst hs2'
  rw [abs_of_pos hbpos] at habs2
  have hm2q : (0 : ℚ) < m2 := by exact_mod_cast hm2
  unfold Format.div
  simp only [Bool.xor_false]
  rw [if_neg (by omega)]
  by_cases ha0 : (Flt.fin s1 m1 e1).value = 0
  · have hz := proper_zero s1 m1 e1 ha ha0
    injection hz with hs1 hm1 he1
    subst hs1 hm1
    rw [ha0, zero_div] at hv
    rw [proper_zero s m e hy hv]
    by_cases he : 0 ≤ e1 - e2
    · rw [if_pos he]; simp [Format.round, binary32]
    · rw [if_neg he]; simp [Format.round, binary32]
  · obtain ⟨hm1, hs1, habs1⟩ := proper_nonzero s1 m1 e1 _ rfl ha0
    have hvne : (Flt.fin s1 m1 e1).value / (Flt.fin false m2 e2).value ≠ 0 :=
      div_ne_zero ha0 hbpos.ne'
    obtain ⟨hm, hs, habs⟩ := proper_nonzero s m e _ hv hvne
    obtain ⟨hrep, _⟩ := (proper_fin_iff s m e).mp hy
    generalize (Flt.fin s1 m1 e1).value = va at hs1 habs1 hv hvne ha0 hs habs
    have hss : s1 = s := by
      rw [hs, hs1]
      congr 1
      rw [eq_iff_iff, div_neg_iff]
      constructor
      · intro h; exact Or.inr ⟨h, hbpos⟩
      · rintro (⟨_, h⟩ | ⟨h, _⟩)
        · exact absurd hbpos (not_lt.mpr h.le)
        · exact h
    rw [hss]
    rw [abs_div, abs_of_pos hbpos, habs1, habs2] at habs
    by_cases he : 0 ≤ e1 - e2
    · rw [if_pos he]
      apply round_exact s _ m2 m e hm2 hm hrep
      rw [← habs]
      push_cast
      rw [two_zpow_toNat _ he, zpow_sub₀ h2]
      field_simp
      ring
    · rw [if_neg he]
      apply round_exact s _ _ m e (by positivity) hm hrep
      rw [← habs]
      push_cast
      rw [two_zpow_toNat _ (by omega), zpow_sub₀ h2]
      field_simp

/-- The accumulation of entries none of whose partial sums rounds ends in the proper datum
whose value is the sum of the values. -/
theorem foldl_add_exact (xs : List Flt) (hp : ∀ x ∈ xs, binary32.proper x = true)
    (hex : accumulates_exactly xs) (y : Flt) (hy : binary32.proper y = true)
    (hv : y.value = (xs.map Flt.value).sum) :
    xs.foldl binary32.add (.fin false 0 (-149)) = y := by
  induction xs using List.reverseRecOn generalizing y with
  | nil =>
    obtain ⟨s, m, e, rfl⟩ := proper_is_fin y hy
    simp only [List.map_nil, List.sum_nil] at hv
    rw [proper_zero s m e hy hv]
    rfl
  | append_singleton init x ih =>
    have hexi : accumulates_exactly init := by
      intro k hk
      have := hex k (by simp; omega)
      rwa [List.take_append_of_le_length hk] at this
    obtain ⟨y', hy', hv'⟩ : exact_float ((init.map Flt.value).sum) := by
      have := hex init.length (by simp)
      rwa [List.take_append_of_le_length (le_refl _), List.take_length] at this
    have hinit := ih (fun z hz => hp z (List.mem_append_left _ hz)) hexi y' hy' hv'
    rw [List.foldl_append, hinit]
    simp only [List.foldl_cons, List.foldl_nil]
    apply add_exact y' x y hy' (hp x (by simp)) hy
    rw [hv, hv']
    simp

/-- The accumulation of `k` copies of `x`, none of whose multiples rounds, ends in the proper
datum whose value is `k` times the value of `x`. -/
theorem repeated_sum_exact (T : Nat) (x : Flt) (hx : binary32.proper x = true)
    (hex : ∀ k, 1 ≤ k → k ≤ T → exact_float (k * x.value)) (k : Nat) (hk : k ≤ T) (y : Flt)
    (hy : binary32.proper y = true) (hv : y.value = k * x.value) :
    repeated_sum float_arith k x = y := by
  induction k generalizing y with
  | zero =>
    obtain ⟨s, m, e, rfl⟩ := proper_is_fin y hy
    rw [proper_zero s m e hy (by simpa using hv)]
    rfl
  | succ k ih =>
    obtain ⟨y', hy', hv'⟩ : exact_float (k * x.value) := by
      rcases Nat.eq_zero_or_pos k with h0 | hpos
      · subst h0
        simpa using exact_float_zero
      · exact hex k hpos (by omega)
    have hprev := ih (by omega) y' hy' hv'
    unfold repeated_sum at hprev ⊢
    rw [Function.iterate_succ_apply', hprev]
    apply add_exact y' x y hy' hx hy
    rw [hv, hv']
    push_cast
    ring

set_option maxRecDepth 100000 in
/-- Counterexample to C8 as stated: seven rows, each holding the `float` nearest to 0.1
(`13421773 * 2^-27`), are pooled into `13421774 * 2^-27`, the next `float` up; two rows
holding `FLT_MAX` are pooled into positive infinity; and one row holding negative zero is
pooled into positive zero. -/
theorem mean_pooling_identical_rows_counterexample :
    binary32.represents f0_1 = true
    ∧ mean_pooling float_arith (List.replicate 7 [f0_1]) = some [Flt.fin false 13421774 (-27)]
    ∧ Flt.fin false 13421774 (-27) ≠ f0_1
    ∧ mean_pooling float_arith (List.replicate 2 [float_max]) = some [Flt.inf false]
    ∧ mean_pooling float_arith (List.replicate 1 [negative_zero]) = some [Flt.fin false 0 (-149)] := by
  decide

/-- C8 (amended): for every `T ≥ 1` and every row `r`, `mean_pooling` applied to `T` rows
all equal to `r` returns a vector of the length of `r`; and it returns `r` unchanged whenever
no `float` operation of the loop rounds, that is, when every entry of `r` is a finite `float`
other than negative zero and `T` and every multiple `k * r[d]`, `1 ≤ k ≤ T`, are exactly
the values of `float`s. -/
theorem mean_pooling_identical_rows (T : Nat) (hT : 1 ≤ T) (r : List Flt) :
    (∃ pooled, mean_pooling float_arith (List.replicate T r) = some pooled
        ∧ pooled.length = r.length)
    ∧ (exact_float (T : ℚ) →
        (∀ x ∈ r, binary32.proper x = true
          ∧ ∀ k : Nat, 1 ≤ k → k ≤ T → exact_float (k * x.value)) →
        mean_pooling float_arith (List.replicate T r) = some r) := by
  have hf := mean_pooling_replicate float_arith T hT r
  refine ⟨⟨_, hf, by simp⟩, ?_⟩
  rintro ⟨yT, hyT, hvT⟩ hr
  rw [hf]
  congr 1
  conv_rhs => rw [← List.map_id r]
  apply List.map_congr_left
  intro x hx
  obtain ⟨hpx, hex⟩ := hr x hx
  obtain ⟨y, hy, hv⟩ := hex T hT (le_refl T)
  have hsum := repeated_sum_exact T x hpx hex T (le_refl T) y hy hv
  have hTq : (0 : ℚ) < T := by exact_mod_cast hT
  show binary32.div (repeated_sum float_arith T x) (binary32.of_nat T) = x
  rw [hsum, of_nat_exact T yT hyT hvT]
  apply div_exact_pos y yT x hy hyT hpx (by rw [hvT]; exact hTq)
  rw [hv, hvT]
  field_simp

/-- Witness of C8 (amended): three rows `[1, 2]`; the multiples 1, 2, 3 and 2, 4, 6 and the
size 3 are `float`s. -/
theorem mean_pooling_identical_rows_witness :
    mean_pooling float_arith (List.replicate 3 [f1, f2]) = some [f1, f2] :=
  (mean_pooling_identical_rows 3 (by decide) [f1, f2]).2
    ⟨f3, by decide, by norm_num [f3, Flt.value]⟩
    (by
      intro x hx
      simp only [List.mem_cons, List.mem_singleton, List.not_mem_nil, or_false] at hx
      rcases hx with rfl | rfl
      · refine ⟨by decide, ?_⟩
        intro k h1 h3
        interval_cases k
        · exact ⟨f1, by decide, by norm_num [f1, Flt.value]⟩
        · exact ⟨f2, by decide, by norm_num [f1, f2, Flt.value]⟩
        · exact ⟨f3, by decide, by norm_num [f1, f3, Flt.value]⟩
      · refine ⟨by decide, ?_⟩
        intro k h1 h3
        interval_cases k
        · exact ⟨f2, by decide, by norm_num [f2, Flt.value]⟩
        · exact ⟨f4, by decide, by norm_num [f2, f4, Flt.value]⟩
        · exact ⟨f6, by decide, by norm_num [f2, f6, Flt.value]⟩)

set_option maxRecDepth 100000 in
/-- Counterexample to C9 as stated: the rows `[16777216]`, `[1]`, `[1]` are pooled into
`5592405.5`, and the same rows in the order `[1]`, `[1]`, `[16777216]` into `5592406`. -/
theorem mean_pooling_perm_counterexample :
    List.Perm [[f1], [f1], [f16777216]] [[f16777216], [f1], [f1]]
    ∧ mean_pooling float_arith [[f16777216], [f1], [f1]] = some [Flt.fin false 11184811 (-1)]
    ∧ mean_pooling float_arith [[f1], [f1], [f16777216]] = some [Flt.fin false 11184812 (-1)]
    ∧ Flt.fin false 11184812 (-1) ≠ Flt.fin false 11184811 (-1) := by
  refine ⟨by decide, by decide, by decide, by decide⟩

/-- C9 (amended): for every non-empty matrix whose rows all have the same length and every
permutation of its rows, `mean_pooling` returns for both a vector of the common row length;
and the two vectors are identical whenever no addition rounds in either accumulation, that
is, when the entries are finite `float`s other than negative zero and in every column each
partial sum, taken in the original row order and in the permuted row order, is exactly the
value of a `float`. -/
theorem mean_pooling_perm (inputs permuted : List (List Flt)) (L : Nat)
    (hne : inputs ≠ []) (hrows : ∀ row ∈ inputs, row.length = L)
    (hperm : List.Perm permuted inputs) :
    (∃ pooled pooled', mean_pooling float_arith inputs = some pooled
        ∧ mean_pooling float_arith permuted = some pooled'
        ∧ pooled.length = L ∧ pooled'.length = L)
    ∧ ((∀ row ∈ inputs, ∀ x ∈ row, binary32.proper x = true) →
        (∀ i, i < L → accumulates_exactly (column i inputs)
          ∧ accumulates_exactly (column i permuted)) →
        mean_pooling float_arith permuted = mean_pooling float_arith inputs) := by
  have hne' : permuted ≠ [] := by
    intro h
    rw [h] at hperm
    exact hne (List.Perm.nil_eq hperm).symm
  have hrows' : ∀ row ∈ permuted, row.length = L :=
    fun row hrow => hrows row (hperm.mem_iff.mp hrow)
  have h1 := mean_pooling_eq_map float_arith inputs L hne hrows
  have h2 := mean_pooling_eq_map float_arith permuted L hne' hrows'
  refine ⟨⟨_, _, h1, h2, by simp, by simp⟩, ?_⟩
  intro hproper hexact
  rw [h1, h2, hperm.length_eq]
  congr 1
  apply List.map_congr_left
  intro i hi
  have hiL : i < L := List.mem_range.mp hi
  obtain ⟨hex1, hex2⟩ := hexact i hiL
  have hcol : ∀ m : List (List Flt), (∀ row ∈ m, row.length = L) →
      (∀ row ∈ m, ∀ x ∈ row, binary32.proper x = true) →
      ∀ x ∈ column i m, binary32.proper x = true := by
    intro m hm hpm x hx
    obtain ⟨row, hrow, rfl⟩ := List.mem_map.mp hx
    have hlt : i < row.length := by rw [hm row hrow]; exact hiL
    rw [List.getD_eq_getElem _ _ hlt]
    exact hpm row hrow _ (List.getElem_mem _)
  have hfold : ∀ m : List (List Flt),
      m.foldl (fun sum row => float_arith.add sum (row.getD i float_arith.zero)) float_arith.zero
        = (column i m).foldl binary32.add (.fin false 0 (-149)) := by
    intro m
    unfold column
    rw [List.foldl_map]
    rfl
  obtain ⟨y, hy, hv⟩ : exact_float (((column i inputs).map Flt.value).sum) := by
    have := hex1 (column i inputs).length (le_refl _)
    rwa [List.take_length] at this
  have hpermcol : List.Perm (column i permuted) (column i inputs) := hperm.map _
  have hsum : ((column i permuted).map Flt.value).sum = ((column i inputs).map Flt.value).sum :=
    (hpermcol.map _).sum_eq
  have hproper' : ∀ row ∈ permuted, ∀ x ∈ row, binary32.proper x = true :=
    fun row hrow => hproper row (hperm.mem_iff.mp hrow)
  rw [hfold inputs, hfold permuted,
    foldl_add_exact _ (hcol inputs hrows hproper) hex1 y hy hv,
    foldl_add_exact _ (hcol permuted hrows' hproper') hex2 y hy (by rw [hv, hsum])]

/-- Witness of C9 (amended): the rows `[1]`, `[2]`, `[4]` and the same rows in the order
`[4]`, `[1]`, `[2]`; the partial sums 1, 3, 7 and 4, 5, 7 are `float`s. -/
theorem mean_pooling_perm_witness :
    mean_pooling float_arith [[f4], [f1], [f2]] = mean_pooling float_arith [[f1], [f2], [f4]] :=
  (mean_pooling_perm [[f1], [f2], [f4]] [[f4], [f1], [f2]] 1
    (by simp)
    (by
      intro row hrow
      simp only [List.mem_cons, List.mem_singleton, List.not_mem_nil, or_false] at hrow
      rcases hrow with h | h | h <;> rw [h] <;> rfl)
    (by decide)).2
    (by
      intro row hrow x hx
      simp only [List.mem_cons, List.mem_singleton, List.not_mem_nil, or_false] at hrow
      rcases hrow with h | h | h <;> rw [h] at hx <;>
        simp only [List.mem_singleton] at hx <;> rw [hx] <;> decide)
    (by
      intro i hi
      have hi0 : i = 0 := by omega
      subst hi0
      constructor
      · intro k hk
        have hk3 : k ≤ 3 := hk
        interval_cases k
        · exact exact_float_zero
        · exact ⟨f1, by decide, by norm_num [column, f1, Flt.value]⟩
        · exact ⟨f3, by decide, by norm_num [column, f1, f2, f3, Flt.value]⟩
        · exact ⟨f7, by decide, by norm_num [column, f1, f2, f4, f7, Flt.value]⟩
      · intro k hk
        have hk3 : k ≤ 3 := hk
        interval_cases k
        · exact exact_float_zero
        · exact ⟨f4, by decide, by norm_num [column, f4, Flt.value]⟩
        · exact ⟨f5, by decide, by norm_num [column, f1, f4, f5, Flt.value]⟩
        · exact ⟨f7, by decide, by norm_num [column, f1, f2, f4, f7, Flt.value]⟩)

/-! ## Embedding through the provider -/

theorem post_embedding_request_eq (w : World) (openai_model_path openai_api_key : Str)
    (input : Json) (body : Str) (hlen : 7 ≤ openai_model_path.length)
    (hdump : w.dump (request_body input (openai_model_path.drop 7)) = .ok body) :
    post_embedding_request w openai_model_path openai_api_key input
      = .ok (.post w.OPENAI_CREATE_EMBEDDING body (embedding_headers openai_api_key),
          w.client.post_response w.OPENAI_CREATE_EMBEDDING body
            (embedding_headers openai_api_key)) := by
  unfold post_embedding_request substr
  rw [if_neg (by omega)]
  simp only [hdump]

theorem collect_embeddings_rows (rows : List Json) (vectors : List (List Flt))
    (h : List.Forall₂ (fun row v => ∃ fields nums, row = Json.object fields
        ∧ fields.lookup "embedding".toList = some (.array nums)
        ∧ Json.get_floats nums = .ok v) rows vectors) :
    collect_embeddings rows = .ok vectors := by
  induction h with
  | nil => rfl
  | cons hrow _ ih =>
    obtain ⟨fields, nums, rfl, hlook, hnums⟩ := hrow
    unfold collect_embeddings
    simp only [Json.index_key, hlook, Option.getD_some, Json.get_float_vector, hnums, ih]

theorem parse_embeddings_response (w : World) (res : Str) (vectors : List (List Flt))
    (h : embedding_response w res vectors) : parse_embeddings w res = .ok vectors := by
  obtain ⟨members, rows, hparse, hdata, hrows⟩ := h
  unfold parse_embeddings
  rw [hparse]
  simp only [bind, Except.bind, Json.index_key, hdata, Option.getD_some, Json.items]
  exact collect_embeddings_rows rows vectors hrows

theorem parse_embedding_response (w : World) (res : Str) (v : List Flt)
    (vectors : List (List Flt)) (h : embedding_response w res (v :: vectors)) :
    parse_embedding w res = .ok v := by
  obtain ⟨members, rows, hparse, hdata, hrows⟩ := h
  cases hrows with
  | cons hrow _ =>
    obtain ⟨fields, nums, rfl, hlook, hnums⟩ := hrow
    unfold parse_embedding
    rw [hparse]
    simp only [bind, Except.bind, Json.index_key, hdata, Option.getD_some, Json.index_pos,
      List.getD_cons_zero, hlook, Json.get_float_vector, hnums]

set_option maxRecDepth 100000 in
/-- Counterexample to C5 as stated: for the inputs `a`, `b`, `c` and a status-200 response
that lists one embedding, `batch_embed` returns one vector, not three; with the identifier
`gpt-4`, shorter than 7 characters, it raises before any request is issued; and so it does
when the request text is not UTF-8 and cannot be serialised. -/
theorem batch_embed_counterexample :
    (batch_embed one_row_world (.openai "openai/text-ada-002".toList "sk-test".toList)
        ["a".toList, "b".toList, "c".toList]).result = .ok (.ok [[f1]])
    ∧ (batch_embed one_row_world (.openai "gpt-4".toList "sk-test".toList)
        ["a".toList, "b".toList, "c".toList]).requests = []
    ∧ (batch_embed one_row_world (.openai "gpt-4".toList "sk-test".toList)
        ["a".toList, "b".toList, "c".toList]).result = .error .out_of_range
    ∧ (batch_embed invalid_text_world (.openai "openai/text-ada-002".toList "sk-test".toList)
        [[Char.ofNat 255]]).requests = []
    ∧ (batch_embed invalid_text_world (.openai "openai/text-ada-002".toList "sk-test".toList)
        [[Char.ofNat 255]]).result = .error (.type_error 316) :=
  ⟨rfl, rfl, rfl, rfl, rfl⟩

/-- C5 (amended): for a remote-mode embedder whose identifier has at least 7 characters and
a list of n input texts whose request document serialises, `batch_embed` issues exactly one
POST request, whose body is the serialised document carrying all n texts in input order and
the identifier from index 7 on as the model name; on a status-200 response of the provider's
shape it returns exactly the vectors the response lists, in the order listed: as many as the
response has rows, so n vectors in input order when the provider answers with one row for
each input, in order. -/
theorem batch_embed_remote (w : World) (openai_model_path openai_api_key : Str)
    (inputs : List Str) (body : Str)
    (hlen : 7 ≤ openai_model_path.length)
    (hdump : w.dump (request_body (.array (inputs.map .string)) (openai_model_path.drop 7))
      = .ok body) :
    (batch_embed w (.openai openai_model_path openai_api_key) inputs).requests
        = [.post w.OPENAI_CREATE_EMBEDDING body (embedding_headers openai_api_key)]
    ∧ ∀ res vectors,
        w.client.post_response w.OPENAI_CREATE_EMBEDDING body
          (embedding_headers openai_api_key) = (200, res) →
        embedding_response w res vectors →
        (batch_embed w (.openai openai_model_path openai_api_key) inputs).result
          = .ok (.ok vectors) := by
  have hpost := post_embedding_request_eq w openai_model_path openai_api_key
    (.array (inputs.map .string)) body hlen hdump
  constructor
  · unfold batch_embed
    simp only [hpost]
    split <;> rfl
  · intro res vectors hres hresp
    unfold batch_embed
    simp only [hpost, hres, ne_eq, not_true_eq_false, if_false,
      parse_embeddings_response w res vectors hresp]
    rfl

set_option maxRecDepth 100000 in
/-- Witness of C5 (amended): the inputs `a`, `b`, `c` against a provider that lists three
embeddings. -/
theorem batch_embed_remote_witness :
    (batch_embed three_row_world (.openai "openai/text-ada-002".toList "sk-test".toList)
        ["a".toList, "b".toList, "c".toList]).requests
      = [.post "https://api.openai.com/v1/embeddings".toList
          "\x7b\"input\":[\"a\",\"b\",\"c\"],\"model\":\"text-ada-002\"\x7d".toList
          (embedding_headers "sk-test".toList)]
    ∧ (batch_embed three_row_world (.openai "openai/text-ada-002".toList "sk-test".toList)
        ["a".toList, "b".toList, "c".toList]).result = .ok (.ok [[f1], [f16777216], [f1]]) :=
  have h := batch_embed_remote three_row_world "openai/text-ada-002".toList "sk-test".toList
    ["a".toList, "b".toList, "c".toList]
    "\x7b\"input\":[\"a\",\"b\",\"c\"],\"model\":\"text-ada-002\"\x7d".toList (by decide) rfl
  ⟨h.1, h.2 _ [[f1], [f16777216], [f1]] rfl
    ⟨_, _, rfl, rfl,
      .cons ⟨_, _, rfl, rfl, rfl⟩ (.cons ⟨_, _, rfl, rfl, rfl⟩ (.cons ⟨_, _, rfl, rfl, rfl⟩ .nil))⟩⟩

/-- Counterexample to C10 as stated: a status-200 response whose body is not JSON makes
`Embed` and `batch_embed` raise `parse_error`; a status-200 response `{}` makes `Embed` raise
`type_error.302`; and with the identifier `gpt-4`, which the remote constructor accepts,
both raise `std::out_of_range` whatever the response. -/
theorem remote_embed_raises_counterexample :
    (Embed proxy_world (.openai "openai/text-ada-002".toList "sk-test".toList)
        "hello".toList).result = .error .parse_error
    ∧ (batch_embed proxy_world (.openai "openai/text-ada-002".toList "sk-test".toList)
        ["hello".toList]).result = .error .parse_error
    ∧ (Embed empty_doc_world (.openai "openai/text-ada-002".toList "sk-test".toList)
        "hello".toList).result = .error (.type_error 302)
    ∧ (Embed unauthorized_world (.openai "gpt-4".toList "sk-test".toList)
        "hello".toList).result = .error .out_of_range
    ∧ (batch_embed unauthorized_world (.openai "gpt-4".toList "sk-test".toList)
        ["hello".toList]).result = .error .out_of_range :=
  ⟨rfl, rfl, rfl, rfl, rfl⟩

/-- C10 (amended): for a remote-mode embedder whose identifier has at least 7 characters and
inputs whose request documents serialise, `Embed` and `batch_embed` return, and do not raise,
whenever the response has a status other than 200 or is a status-200 response of the
provider's shape (with at least one embedding for `Embed`); on a status other than 200 they
return the structured error with code 400 and the message "OpenAI API error: " followed by
the response body (`Embed`), or the response body alone (`batch_embed`). -/
theorem remote_embed_returns (w : World) (openai_model_path openai_api_key text : Str)
    (inputs : List Str) (body bodies : Str)
    (hlen : 7 ≤ openai_model_path.length)
    (hdump : w.dump (request_body (.string text) (openai_model_path.drop 7)) = .ok body)
    (hdumps : w.dump (request_body (.array (inputs.map .string)) (openai_model_path.drop 7))
      = .ok bodies)
    (hres : (w.client.post_response w.OPENAI_CREATE_EMBEDDING body
          (embedding_headers openai_api_key)).1 ≠ 200
        ∨ ∃ v vectors, embedding_response w (w.client.post_response w.OPENAI_CREATE_EMBEDDING
            body (embedding_headers openai_api_key)).2 (v :: vectors))
    (hress : (w.client.post_response w.OPENAI_CREATE_EMBEDDING bodies
          (embedding_headers openai_api_key)).1 ≠ 200
        ∨ ∃ vectors, embedding_response w (w.client.post_response w.OPENAI_CREATE_EMBEDDING
            bodies (embedding_headers openai_api_key)).2 vectors) :
    (∃ r, (Embed w (.openai openai_model_path openai_api_key) text).result = .ok r)
    ∧ (∃ r, (batch_embed w (.openai openai_model_path openai_api_key) inputs).result = .ok r)
    ∧ ((w.client.post_response w.OPENAI_CREATE_EMBEDDING body
          (embedding_headers openai_api_key)).1 ≠ 200 →
        (Embed w (.openai openai_model_path openai_api_key) text).result
          = .ok (.error 400 ("OpenAI API error: ".toList
              ++ (w.client.post_response w.OPENAI_CREATE_EMBEDDING body
                  (embedding_headers openai_api_key)).2)))
    ∧ ((w.client.post_response w.OPENAI_CREATE_EMBEDDING bodies
          (embedding_headers openai_api_key)).1 ≠ 200 →
        (batch_embed w (.openai openai_model_path openai_api_key) inputs).result
          = .ok (.error 400 (w.client.post_response w.OPENAI_CREATE_EMBEDDING bodies
              (embedding_headers openai_api_key)).2)) := by
  have hpost := post_embedding_request_eq w openai_model_path openai_api_key
    (.string text) body hlen hdump
  have hposts := post_embedding_request_eq w openai_model_path openai_api_key
    (.array (inputs.map .string)) bodies hlen hdumps
  have hE : ∀ h : (w.client.post_response w.OPENAI_CREATE_EMBEDDING body
      (embedding_headers openai_api_key)).1 ≠ 200,
      (Embed w (.openai openai_model_path openai_api_key) text).result
        = .ok (.error 400 ("OpenAI API error: ".toList
            ++ (w.client.post_response w.OPENAI_CREATE_EMBEDDING body
                (embedding_headers openai_api_key)).2)) := by
    intro h
    unfold Embed
    simp only [hpost, h, ne_eq, not_false_eq_true, if_true]
  have hB : ∀ h : (w.client.post_response w.OPENAI_CREATE_EMBEDDING bodies
      (embedding_headers openai_api_key)).1 ≠ 200,
      (batch_embed w (.openai openai_model_path openai_api_key) inputs).result
        = .ok (.error 400 (w.client.post_response w.OPENAI_CREATE_EMBEDDING bodies
            (embedding_headers openai_api_key)).2) := by
    intro h
    unfold batch_embed
    simp only [hposts, h, ne_eq, not_false_eq_true, if_true]
  refine ⟨?_, ?_, hE, hB⟩
  · by_cases h : (w.client.post_response w.OPENAI_CREATE_EMBEDDING body
        (embedding_headers openai_api_key)).1 = 200
    · rcases hres with hne | ⟨v, vectors, hresp⟩
      · exact absurd h hne
      · refine ⟨.ok v, ?_⟩
        unfold Embed
        simp only [hpost, h, ne_eq, not_true_eq_false, if_false,
          parse_embedding_response w _ v vectors hresp]
        rfl
    · exact ⟨_, hE h⟩
  · by_cases h : (w.client.post_response w.OPENAI_CREATE_EMBEDDING bodies
        (embedding_headers openai_api_key)).1 = 200
    · rcases hress with hne | ⟨vectors, hresp⟩
      · exact absurd h hne
      · refine ⟨.ok vectors, ?_⟩
        unfold batch_embed
        simp only [hposts, h, ne_eq, not_true_eq_false, if_false,
          parse_embeddings_response w _ vectors hresp]
        rfl
    · exact ⟨_, hB h⟩

/-- Witness of C10 (amended): a provider that answers with status 401. -/
theorem remote_embed_returns_witness :
    (Embed unauthorized_world (.openai "openai/text-ada-002".toList "sk-test".toList)
        "hello".toList).result
      = .ok (.error 400 ("OpenAI API error: ".toList
          ++ "\x7b\"error\":\x7b\"message\":\"Incorrect API key provided\"\x7d\x7d".toList))
    ∧ (batch_embed unauthorized_world (.openai "openai/text-ada-002".toList "sk-test".toList)
        ["hello".toList]).result
      = .ok (.error 400 "\x7b\"error\":\x7b\"message\":\"Incorrect API key provided\"\x7d\x7d".toList) :=
  have h := remote_embed_returns unauthorized_world "openai/text-ada-002".toList
    "sk-test".toList "hello".toList ["hello".toList]
    "\x7b\"input\":\"hello\",\"model\":\"text-ada-002\"\x7d".toList
    "\x7b\"input\":[\"hello\"],\"model\":\"text-ada-002\"\x7d".toList
    (by decide) rfl rfl (Or.inl (by decide)) (Or.inl (by decide))
  ⟨h.2.2.1 (by decide), h.2.2.2 (by decide)⟩

end TextEmbedder
